import Mathlib

/-!
# gitsvc: the repository mirror and its HTTP handlers

A shallow embedding of `service.go` and `handlers.go`, and the properties of
the mirror they implement.

* The version-control engine (go-git), the operating system, the clock and the
  JSON and YAML decoders are external collaborators.  They are the fields of
  `Env`: functions of an abstract world state `σ`.  Only `Pull` changes the
  world; what `Head` answers for a repository reference is read from the world,
  so it can differ before and after a pull.
* Every method of `*GitService` returns the service it leaves behind, because
  the methods write the `Repo` field (the lazily opened repository).
* Paths are Go strings.  `Clean`, `Join` and `Rel` of `path/filepath` work on
  the characters of a path as the Unix implementation does, and
  `filepath.Walk` runs over a tree that records what `Lstat` and the directory
  reads find.
* A handler ends in `c.NoContent`, `c.JSON` or `Yaml`, and returns the error
  of that call.  A `Response` records the status code, the encoding and the
  payload handed over, and what the encoder made of it: written, failed before
  writing, or broken after the response was committed.  `serve` is the server
  around the handler: it gives the answer the client gets, with the 500 of the
  framework's error handler when the handler returns an error and nothing was
  written.
-/

namespace GitSvc

/-! ## Values shared by the service and the handlers -/

/-- Go `error` values.  The sentinels the code or the walk compare against by
identity are constructors of their own; everything else is `other`. -/
inductive GoError where
  | NoErrAlreadyUpToDate
  | SkipDir
  | SkipAll
  | other (msg : String)
  deriving DecidableEq, Repr

/-- Identity of an open `*git.Repository`. -/
abbrev RepoRef := Nat

/-- A commit identifier, `ref.Hash().String()`. -/
abbrev Hash := String

/-- An instant (`time.Time`). -/
abbrev Time := Int

/-- File content, a sequence of bytes. -/
abbrev Bytes := List (Fin 256)

/-- The value `ssh.NewPublicKeysFromFile` builds: the user and the signer parsed
from the key file. -/
structure PublicKeys where
  User : String
  Signer : Bytes
  deriving DecidableEq, Repr

/-- The two `transport.AuthMethod`s the service builds. -/
inductive AuthMethod where
  | BasicAuth (Username Password : String)
  | PublicKeys (keys : PublicKeys)
  deriving DecidableEq, Repr

/-- The fields of `git.PullOptions` that `PullRepo` sets, but for `Progress`,
the writer the engine reports to. -/
structure PullOptions where
  RemoteName : String
  SingleBranch : Bool
  RecurseSubmodules : Nat
  Auth : Option AuthMethod
  deriving DecidableEq, Repr

/-- `git.DefaultSubmoduleRecursionDepth`. -/
def DefaultSubmoduleRecursionDepth : Nat := 10

/-! ## What the handlers hand to the encoders -/

/-- The `content` of a file response: a decoded document, or the bytes of the
file as a string. -/
inductive Content (V : Type) where
  | decoded (doc : V)
  | text (bytes : Bytes)

/-- `FileResponse`. -/
structure FileResponse (V : Type) where
  Content : Content V
  Timestamp : Time
  CommitHash : String
  Offline : Bool

/-- `TreeResponse`. -/
structure TreeResponse where
  Files : List String
  Timestamp : Time
  CommitHash : String
  Offline : Bool
  deriving DecidableEq, Repr

/-- A value of a `map[string]interface{}`. -/
inductive MapValue where
  | str (s : String)
  | time (t : Time)
  | bool (b : Bool)
  deriving DecidableEq, Repr

/-- What a handler hands to the framework to encode. -/
inductive Payload (V : Type) where
  | noContent
  | stringMap (m : List (String × String))
  | anyMap (m : List (String × MapValue))
  | file (r : FileResponse V)
  | tree (r : TreeResponse)

/-- What a run of an encoder on a response leaves behind.  `written`: `Encode`
returned nil, the whole value is on the wire, and `wire` is the payload a client
reads back from it.  `failed`: `Encode` returned an error before it wrote (a
value it cannot encode), so the response is not committed.  `broken`: `Encode`
returned an error after the response was committed (a write that failed or
stopped part way). -/
inductive Encoded (V : Type) where
  | written (wire : Payload V)
  | failed (err : GoError)
  | broken (err : GoError)

/-! ## The world outside the program -/

/-- What a path names for `os.ReadFile` and `os.Stat`. -/
inductive FileEntry where
  | missing
  | directory
  | regular (content : Bytes)
  | failing (err : GoError)
  deriving DecidableEq, Repr

/-- What `filepath.Walk` finds at a path: `Lstat` fails, or it is not a
directory, or it is a directory whose names cannot be read, or a directory with
its entries in the order `readDirNames` returns them. -/
inductive FsNode where
  | noStat (err : GoError)
  | file
  | dirNoRead (err : GoError)
  | dir (entries : List (String × FsNode))

/-- The external collaborators.  `σ` is the state of the world they read and
write (the repository storage, the working copy, the clock), `V` the type of a
decoded JSON or YAML document.  The last field is the one thing taken for
granted about the engine: a pull that reports "already up to date" has fetched
nothing and moved no HEAD.  A pull that fails is under no such promise. -/
structure Env (σ V : Type) where
  /-- `git.PlainOpen(path)`. -/
  PlainOpen : σ → String → Except GoError RepoRef
  /-- The error of `repo.Worktree()`. -/
  Worktree : σ → RepoRef → Option GoError
  /-- `w.Pull(options)` on the worktree of a repository: its error and the
  world it leaves. -/
  Pull : σ → RepoRef → PullOptions → Option GoError × σ
  /-- `repo.Head()`, as the hash of the reference. -/
  Head : σ → RepoRef → Except GoError Hash
  /-- `repo.CommitObject(hash)`, as the commit's `Committer.When`. -/
  CommitObject : σ → RepoRef → Hash → Except GoError Time
  /-- `ssh.NewPublicKeysFromFile(user, pemFile, password)`. -/
  NewPublicKeysFromFile : σ → String → String → String → Except GoError PublicKeys
  /-- `os.Getenv`. -/
  Getenv : σ → String → String
  /-- What a path names, for `os.ReadFile` and `os.Stat`. -/
  fileAt : σ → String → FileEntry
  /-- What `os.Lstat` and the directory reads of a walk find from a path on. -/
  treeAt : σ → String → FsNode
  /-- `time.Now()`. -/
  Now : σ → Time
  /-- `json.Unmarshal(data, &content)`. -/
  jsonUnmarshal : Bytes → Except GoError V
  /-- `yaml.Unmarshal(data, &content)`. -/
  yamlUnmarshal : Bytes → Except GoError V
  /-- `json.NewEncoder(c.Response()).Encode(i)`, as `c.JSON` runs it. -/
  encodeJSON : Payload V → Encoded V
  /-- `yaml.NewEncoder(c.Response()).Encode(i)`, as `Yaml` runs it. -/
  encodeYAML : Payload V → Encoded V
  /-- A pull that reports `NoErrAlreadyUpToDate` leaves every HEAD where it was. -/
  Pull_upToDate : ∀ st repo options,
    (Pull st repo options).1 = some GoError.NoErrAlreadyUpToDate →
    ∀ r, Head (Pull st repo options).2 r = Head st r

/-- `os.ReadFile`. -/
def os_ReadFile {σ V : Type} (env : Env σ V) (st : σ) (name : String) : Except GoError Bytes :=
  match env.fileAt st name with
  | .regular content => .ok content
  | .directory => .error (.other "read: is a directory")
  | .missing => .error (.other "open: no such file or directory")
  | .failing err => .error err

/-- The error of `os.Stat`. -/
def os_Stat {σ V : Type} (env : Env σ V) (st : σ) (name : String) : Option GoError :=
  match env.fileAt st name with
  | .regular _ => none
  | .directory => none
  | .missing => some (.other "stat: no such file or directory")
  | .failing err => some err

/-! ## `strings` and `path/filepath` (Unix), on the characters of a path -/

/-- The separator test of `path/filepath` on Unix. -/
def isSep (c : Char) : Bool := c = '/'

/-- Whether `sub` occurs in `s` as a contiguous run. -/
def containsChars (sub : List Char) : List Char → Bool
  | [] => sub.isPrefixOf []
  | c :: cs => sub.isPrefixOf (c :: cs) || containsChars sub cs

/-- The characters of `.git`, the name `GetTreeHandler` looks for. -/
def dotGit : List Char := ['.', 'g', 'i', 't']

/-- `strings.Contains(s, substr)`. -/
def strings_Contains (s substr : String) : Bool := containsChars substr.data s.data

/-- `strings.HasSuffix(s, suffix)`. -/
def strings_HasSuffix (s suffix : String) : Bool := suffix.data.isSuffixOf s.data

/-- The path elements between separators, empty ones included. -/
def splitSep : List Char → List (List Char)
  | [] => [[]]
  | c :: cs =>
    if isSep c then [] :: splitSep cs
    else
      match splitSep cs with
      | [] => [[c]]
      | e :: es => (c :: e) :: es

/-- The rest of the `..` case of `Clean` after the first `out.w--`: `popped` is
the character at index `out.w`, `rev` the buffer below it, top first.
`for out.w > dotdot && !os.IsPathSeparator(out.index(out.w)) { out.w-- }`. -/
def backtrackLoop (dotdot : Nat) : Char → List Char → List Char
  | _, [] => []
  | popped, c :: rev =>
    if (c :: rev).length > dotdot ∧ ¬ isSep popped then backtrackLoop dotdot c rev
    else c :: rev

/-- The `..` case of `Clean` when it can backtrack: the buffer with its last
element removed. -/
def backtrack (out : List Char) (dotdot : Nat) : List Char :=
  match out.reverse with
  | [] => []
  | popped :: rev => (backtrackLoop dotdot popped rev).reverse

/-- The loop of `Clean` over the buffer `out`, one step for each path element
(each round of the loop reads one: a separator closes an empty element, and the
other three cases read `.`, `..` or an element up to the next separator): an
empty element and `.` append nothing, `..` backtracks or (unrooted) is appended
and moves `dotdot`, any other element is appended after a separator where one
is needed. -/
def cleanLoop (rooted : Bool) : List (List Char) → List Char → Nat → List Char
  | [], out, _ => out
  | e :: es, out, dotdot =>
    if e = [] ∨ e = ['.'] then cleanLoop rooted es out dotdot
    else if e = ['.', '.'] then
      if out.length > dotdot then cleanLoop rooted es (backtrack out dotdot) dotdot
      else if rooted then cleanLoop rooted es out dotdot
      else
        let out1 := if out.length > 0 then out ++ ['/'] else out
        cleanLoop rooted es (out1 ++ ['.', '.']) (out1 ++ ['.', '.']).length
    else
      let out1 :=
        if (rooted ∧ out.length ≠ 1) ∨ (¬ rooted ∧ out.length ≠ 0) then out ++ ['/'] else out
      cleanLoop rooted es (out1 ++ e) dotdot

/-- `filepath.Clean` on the characters of a path. -/
def cleanChars (path : List Char) : List Char :=
  match path with
  | [] => ['.']
  | c :: _ =>
    let rooted := isSep c
    let out := cleanLoop rooted (splitSep path) (if rooted then ['/'] else []) (if rooted then 1 else 0)
    if out.length = 0 then ['.'] else out

/-- `filepath.Clean`. -/
def filepath_Clean (path : String) : String := String.mk (cleanChars path.data)

/-- `strings.Join(elem, "/")` on characters. -/
def joinSep : List (List Char) → List Char
  | [] => []
  | [e] => e
  | e :: es => e ++ '/' :: joinSep es

/-- `filepath.Join` on characters: the elements from the first non-empty one
on, joined by separators and cleaned; the empty string when there is none. -/
def joinChars : List (List Char) → List Char
  | [] => []
  | e :: es => if e = [] then joinChars es else cleanChars (joinSep (e :: es))

/-- `filepath.Join`. -/
def filepath_Join (elem : List String) : String := String.mk (joinChars (elem.map String.data))

/-- The loop of `Rel` that positions both paths at their first differing
elements.  `base` is `base[b0:]`, `targ` is `targ[t0:]`; the result is
`(base[b0:bi], base[b0:], targ[t0:])` at the exit of the loop.  The loop runs
while `bi < bl && ti < tl`; `fuel` bounds its rounds, each of which shortens
`base`. -/
def relLoop : Nat → List Char → List Char → List Char × List Char × List Char
  | 0, base, targ => ([], base, targ)
  | fuel + 1, base, targ =>
    if base = [] ∨ targ = [] then ([], base, targ)
    else
      let bElem := base.takeWhile (fun c => ! isSep c)
      let tElem := targ.takeWhile (fun c => ! isSep c)
      if tElem ≠ bElem then (bElem, base, targ)
      else
        relLoop fuel ((base.dropWhile (fun c => ! isSep c)).drop 1)
          ((targ.dropWhile (fun c => ! isSep c)).drop 1)

/-- The `..` elements `Rel` writes for the base elements that are left:
`".."` and then `"/.."` for each separator in `base[b0:bl]`. -/
def upDirs (rest : List Char) : List Char :=
  ['.', '.'] ++ (List.replicate (rest.count '/') ['/', '.', '.']).flatten

/-- `filepath.Rel` on characters. -/
def relChars (basepath targpath : List Char) : Except GoError (List Char) :=
  let base := cleanChars basepath
  let targ := cleanChars targpath
  if targ = base then .ok ['.']
  else
    let base := if base = ['.'] then [] else base
    let baseSlashed := base.head? = some '/'
    let targSlashed := targ.head? = some '/'
    if baseSlashed ≠ targSlashed then .error (.other "Rel: can't make relative")
    else
      let pos := relLoop base.length base targ
      let bElem := pos.1
      let bRest := pos.2.1
      let tRest := pos.2.2
      if bElem = ['.', '.'] then .error (.other "Rel: can't make relative")
      else if bRest ≠ [] then
        .ok (upDirs bRest ++ (if tRest ≠ [] then '/' :: tRest else []))
      else .ok tRest

/-- `filepath.Rel`. -/
def filepath_Rel (basepath targpath : String) : Except GoError String :=
  (relChars basepath.data targpath.data).map String.mk

/-! ## `service.go` -/

/-- The service: `Repo` is `none` until the repository has been opened. -/
structure GitService where
  RepoPath : String
  Repo : Option RepoRef
  Token : String
  SSHKeyPath : String
  deriving DecidableEq, Repr

variable {σ V : Type}

/-- `GitService.getAuth`: the credential, `none` for no credential, or the
error of loading the key file. -/
def GitService.getAuth (env : Env σ V) (st : σ) (s : GitService) :
    Except GoError (Option AuthMethod) :=
  if s.Token ≠ "" then
    .ok (some (.BasicAuth "token" s.Token))
  else if s.SSHKeyPath ≠ "" then
    match env.NewPublicKeysFromFile st "git" s.SSHKeyPath "" with
    | .ok keys => .ok (some (.PublicKeys keys))
    | .error err => .error err
  else
    let defaultKeyPath := filepath_Join [env.Getenv st "HOME", ".ssh", "id_rsa"]
    if os_Stat env st defaultKeyPath = none then
      match env.NewPublicKeysFromFile st "git" defaultKeyPath "" with
      | .ok keys => .ok (some (.PublicKeys keys))
      | .error err => .error err
    else .ok none

/-- The result of `PullRepo`: its error, the service and the world it leaves. -/
structure PullResult (σ : Type) where
  err : Option GoError
  service : GitService
  state : σ

/-- `GitService.PullRepo`. -/
def GitService.PullRepo (env : Env σ V) (st : σ) (s : GitService) : PullResult σ :=
  let opened : Except GoError (RepoRef × GitService) :=
    match s.Repo with
    | some repo => .ok (repo, s)
    | none =>
      match env.PlainOpen st s.RepoPath with
      | .error err => .error err
      | .ok repo => .ok (repo, { s with Repo := some repo })
  match opened with
  | .error err => ⟨some err, s, st⟩
  | .ok (repo, s1) =>
    match env.Worktree st repo with
    | some err => ⟨some err, s1, st⟩
    | none =>
      let pullOptions : PullOptions :=
        { RemoteName := "origin", SingleBranch := false,
          RecurseSubmodules := DefaultSubmoduleRecursionDepth, Auth := none }
      match s1.getAuth env st with
      | .error err => ⟨some err, s1, st⟩
      | .ok auth =>
        let pullOptions : PullOptions :=
          match auth with
          | some a => { pullOptions with Auth := some a }
          | none => pullOptions
        match env.Pull st repo pullOptions with
        | (err, st1) =>
          if err = some GoError.NoErrAlreadyUpToDate then ⟨none, s1, st1⟩
          else ⟨err, s1, st1⟩

/-- `GitService.GetLatestCommitHash`, with the service it leaves. -/
def GitService.GetLatestCommitHash (env : Env σ V) (st : σ) (s : GitService) :
    Except GoError Hash × GitService :=
  let opened : Except GoError (RepoRef × GitService) :=
    match s.Repo with
    | some repo => .ok (repo, s)
    | none =>
      match env.PlainOpen st s.RepoPath with
      | .error err => .error err
      | .ok repo => .ok (repo, { s with Repo := some repo })
  match opened with
  | .error err => (.error err, s)
  | .ok (repo, s1) =>
    match env.Head st repo with
    | .error err => (.error err, s1)
    | .ok hash => (.ok hash, s1)

/-- `GitService.GetCommitTimestamp`, with the service it leaves. -/
def GitService.GetCommitTimestamp (env : Env σ V) (st : σ) (s : GitService) :
    Except GoError Time × GitService :=
  let opened : Except GoError (RepoRef × GitService) :=
    match s.Repo with
    | some repo => .ok (repo, s)
    | none =>
      match env.PlainOpen st s.RepoPath with
      | .error err => .error err
      | .ok repo => .ok (repo, { s with Repo := some repo })
  match opened with
  | .error err => (.error err, s)
  | .ok (repo, s1) =>
    match env.Head st repo with
    | .error err => (.error err, s1)
    | .ok hash =>
      match env.CommitObject st repo hash with
      | .error err => (.error err, s1)
      | .ok when => (.ok when, s1)

/-! ## `handlers.go` -/

/-- What `getCommitInfo` returns, with the service it leaves. -/
structure CommitInfo where
  commitHash : String
  timestamp : Time
  offline : Bool
  service : GitService
  deriving DecidableEq, Repr

/-- `Handler.getCommitInfo`. -/
def getCommitInfo (env : Env σ V) (st : σ) (s : GitService) : CommitInfo :=
  let r1 := s.GetLatestCommitHash env st
  let offline := false
  let (commitHash, offline) :=
    match r1.1 with
    | .error _ => ("unknown", true)
    | .ok hash => (hash, offline)
  let r2 := r1.2.GetCommitTimestamp env st
  let (timestamp, offline) :=
    match r2.1 with
    | .error _ => (env.Now st, true)
    | .ok when => (when, offline)
  ⟨commitHash, timestamp, offline, r2.2⟩

/-- What a handler has done when it returns: the status code, the encoding
(`"json"`, `"yaml"`, or `""` for no content) and the payload it handed to the
encoder, and what the encoder made of it. -/
structure Response (V : Type) where
  status : Nat
  format : String
  body : Payload V
  encoded : Encoded V

/-- The error a handler returns: the error of the encoder it ended in. -/
def Response.err (r : Response V) : Option GoError :=
  match r.encoded with
  | .written _ => none
  | .failed err => some err
  | .broken err => some err

/-- What the client gets: the status code and the body, `none` for a body that
was cut off. -/
structure Answer (V : Type) where
  status : Nat
  body : Option (Payload V)

/-- The offline indicator a payload carries, if it carries one: the `Offline`
field of a file or tree response, a boolean under the key `offline` of a map. -/
def Payload.offlineIndicator : Payload V → Option Bool
  | .file r => some r.Offline
  | .tree r => some r.Offline
  | .anyMap m =>
    match m.lookup "offline" with
    | some (.bool b) => some b
    | _ => none
  | .stringMap _ => none
  | .noContent => none

/-- `http.StatusOK`. -/
def StatusOK : Nat := 200

/-- `http.StatusNotFound`. -/
def StatusNotFound : Nat := 404

/-- `http.StatusInternalServerError`. -/
def StatusInternalServerError : Nat := 500

/-- `c.NoContent(code)`: the header is written, nothing is encoded, the error
is nil. -/
def c_NoContent (code : Nat) : Response V :=
  ⟨code, "", .noContent, .written .noContent⟩

/-- `c.JSON(code, i)`: the status is set and the JSON encoder runs on the
response; its error is the handler's. -/
def c_JSON (env : Env σ V) (code : Nat) (i : Payload V) : Response V :=
  ⟨code, "json", i, env.encodeJSON i⟩

/-- `Yaml(c, code, i)`: the status is set and the YAML encoder runs on the
response; its error is the handler's. -/
def Yaml (env : Env σ V) (code : Nat) (i : Payload V) : Response V :=
  ⟨code, "yaml", i, env.encodeYAML i⟩

/-- `returnResponse`: `Yaml` for the format `"yaml"`, `c.JSON` otherwise. -/
def returnResponse (env : Env σ V) (statusCode : Nat) (format : String)
    (response : Payload V) : Response V :=
  if format = "yaml" then Yaml env statusCode response
  else c_JSON env statusCode response

/-- The server around a handler as `main.go` sets it up, echo with its default
error handler on `net/http`.  A committed response stands, whatever the handler
returns.  When the handler returns an error with nothing committed, the error
handler answers 500 through `c.JSON` with the message `Internal Server Error`;
should that encoder fail as well before writing, nothing is ever written and
`net/http` closes the exchange with an empty 200. -/
def serve (env : Env σ V) (r : Response V) : Answer V :=
  match r.encoded with
  | .written wire => ⟨r.status, some wire⟩
  | .broken _ => ⟨r.status, none⟩
  | .failed _ =>
    match env.encodeJSON (.anyMap [("message", .str "Internal Server Error")]) with
    | .written wire => ⟨StatusInternalServerError, some wire⟩
    | .broken _ => ⟨StatusInternalServerError, none⟩
    | .failed _ => ⟨StatusOK, some .noContent⟩

/-- The parse that belongs to the suffix of the path fails on the bytes read:
the JSON parse for `.json`, the YAML parse for `.yaml` and `.yml`. -/
def parseFails (env : Env σ V) (filePath : String) (bytes : Bytes) : Prop :=
  (strings_HasSuffix filePath ".json" = true ∧ ∃ err, env.jsonUnmarshal bytes = .error err) ∨
  ((strings_HasSuffix filePath ".yaml" = true ∨ strings_HasSuffix filePath ".yml" = true) ∧
    ∃ err, env.yamlUnmarshal bytes = .error err)

/-- The part of `GetFileHandler` that interprets the bytes read by the suffix
of the `path` parameter: the content, or the response that reports the parse
failure. -/
def decodeContent (env : Env σ V) (filePath : String) (contentBytes : Bytes) :
    Except (Response V) (Content V) :=
  if strings_HasSuffix filePath ".json" then
    match env.jsonUnmarshal contentBytes with
    | .error _ =>
      .error (c_JSON env StatusInternalServerError (.stringMap [("error", "Failed to parse JSON")]))
    | .ok doc => .ok (.decoded doc)
  else if strings_HasSuffix filePath ".yaml" ∨ strings_HasSuffix filePath ".yml" then
    match env.yamlUnmarshal contentBytes with
    | .error _ =>
      .error (c_JSON env StatusInternalServerError (.stringMap [("error", "Failed to parse YAML")]))
    | .ok doc => .ok (.decoded doc)
  else .ok (.text contentBytes)

/-- `Handler.GetFileHandler` for the query parameters `path` and `format`. -/
def GetFileHandler (env : Env σ V) (st : σ) (s : GitService) (filePath format : String) :
    Response V × GitService :=
  let format := if format ≠ "yaml" then "json" else format
  let fullPath := filepath_Join [s.RepoPath, filePath]
  match os_ReadFile env st fullPath with
  | .error _ => (c_NoContent StatusNotFound, s)
  | .ok contentBytes =>
    match decodeContent env filePath contentBytes with
    | .error resp => (resp, s)
    | .ok content =>
      let info := getCommitInfo env st s
      let response : FileResponse V :=
        { Content := content, Timestamp := info.timestamp, CommitHash := info.commitHash,
          Offline := info.offline }
      let response := if info.offline then { response with Offline := true } else response
      (returnResponse env StatusOK format (.file response), info.service)

/-- `Handler.UpdateRepoHandler`, with the service and the world it leaves. -/
def UpdateRepoHandler (env : Env σ V) (st : σ) (s : GitService) :
    Response V × GitService × σ :=
  let pulled := s.PullRepo env st
  match pulled.err with
  | some _ =>
    let info := getCommitInfo env pulled.state pulled.service
    let response : List (String × MapValue) :=
      [("message", .str "Failed to update repo, working in offline mode"),
       ("commit_hash", .str info.commitHash),
       ("timestamp", .time info.timestamp)]
    (c_JSON env StatusOK (.anyMap response), info.service, pulled.state)
  | none =>
    let info := getCommitInfo env pulled.state pulled.service
    let response : List (String × MapValue) :=
      [("message", .str "Repo updated"),
       ("commit_hash", .str info.commitHash),
       ("timestamp", .time info.timestamp)]
    (c_JSON env StatusOK (.anyMap response), info.service, pulled.state)

/-- Whether `info.IsDir()` holds for what `Lstat` found. -/
def FsNode.IsDir : FsNode → Bool
  | .dir _ => true
  | .dirNoRead _ => true
  | _ => false

mutual
/-- The `walk` of `path/filepath`: `node` is what `Lstat` found at `path`.
The callback gets the accumulated state, the path, `info.IsDir()` (`none` for a
nil `info`) and the error, and returns the state and its own error. -/
def filepath_walk {α : Type} (fn : α → String → Option Bool → Option GoError → α × Option GoError) :
    String → FsNode → α → α × Option GoError
  | path, .file, acc => fn acc path (some false) none
  | path, .noStat err, acc => fn acc path none (some err)
  | path, .dirNoRead err, acc => fn acc path (some true) (some err)
  | path, .dir entries, acc =>
    match fn acc path (some true) none with
    | (acc1, some err1) => (acc1, some err1)
    | (acc1, none) => filepath_walkNames fn path entries acc1
/-- The loop of `walk` over the names of a directory. -/
def filepath_walkNames {α : Type} (fn : α → String → Option Bool → Option GoError → α × Option GoError) :
    String → List (String × FsNode) → α → α × Option GoError
  | _, [], acc => (acc, none)
  | path, (name, node) :: rest, acc =>
    let filename := filepath_Join [path, name]
    match node with
    | .noStat err =>
      match fn acc filename none (some err) with
      | (acc1, some err1) =>
        if err1 ≠ GoError.SkipDir then (acc1, some err1)
        else filepath_walkNames fn path rest acc1
      | (acc1, none) => filepath_walkNames fn path rest acc1
    | node =>
      match filepath_walk fn filename node acc with
      | (acc1, some err1) =>
        if ¬ node.IsDir ∨ err1 ≠ GoError.SkipDir then (acc1, some err1)
        else filepath_walkNames fn path rest acc1
      | (acc1, none) => filepath_walkNames fn path rest acc1
end

/-- `filepath.Walk(root, fn)` from the state `acc`. -/
def filepath_Walk {α : Type} (env : Env σ V) (st : σ) (root : String)
    (fn : α → String → Option Bool → Option GoError → α × Option GoError) (acc : α) :
    α × Option GoError :=
  let r :=
    match env.treeAt st root with
    | .noStat err => fn acc root none (some err)
    | node => filepath_walk fn root node acc
  if r.2 = some GoError.SkipDir ∨ r.2 = some GoError.SkipAll then (r.1, none) else r

/-- The callback `GetTreeHandler` passes to the walk; the state is `files`. -/
def treeWalkFn (RepoPath : String) (files : List String) (path : String)
    (isDir : Option Bool) (err : Option GoError) : List String × Option GoError :=
  match err with
  | some e => (files, some e)
  | none =>
    if isDir ≠ some true then
      if strings_Contains path ".git" then (files, none)
      else
        match filepath_Rel RepoPath path with
        | .error e => (files, some e)
        | .ok relativePath => (files ++ [relativePath], none)
    else (files, none)

/-- `Handler.GetTreeHandler` for the query parameter `format`. -/
def GetTreeHandler (env : Env σ V) (st : σ) (s : GitService) (format : String) :
    Response V × GitService :=
  let format := if format ≠ "yaml" then "json" else format
  match filepath_Walk env st s.RepoPath (treeWalkFn s.RepoPath) [] with
  | (_, some _) =>
    (returnResponse env StatusInternalServerError "json"
      (.stringMap [("error", "Failed to build file tree")]), s)
  | (files, none) =>
    let info := getCommitInfo env st s
    let response : TreeResponse :=
      { Files := files, Timestamp := info.timestamp, CommitHash := info.commitHash,
        Offline := info.offline }
    (returnResponse env StatusOK format (.tree response), info.service)

/-! ## A concrete world for the closed statements -/

/-- A working copy: the metadata directory, an ignore file, a readme and one
document in a subdirectory. -/
def demoTree : FsNode :=
  .dir [(".git", .dir [("HEAD", .file), ("config", .file)]),
        (".gitignore", .file),
        ("README.md", .file),
        ("docs", .dir [("a.md", .file)])]

/-- Whether the JSON encoder takes an instant (seconds since the Unix epoch,
in UTC): `Time.MarshalJSON` refuses a year outside 0 to 9999. -/
def timeFitsJSON (t : Time) : Bool := decide (-62167219200 ≤ t ∧ t < 253402300800)

/-- The string the JSON encoder writes for a Go string, on the files of the
demo worlds: a byte from `0xF5` on occurs in no UTF-8 text and is written as
U+FFFD (`EF BF BD`); these files hold no other byte beyond ASCII. -/
def demoWireString : Bytes → Bytes
  | [] => []
  | b :: bs => (if 245 ≤ b.val then [239, 191, 189] else [b]) ++ demoWireString bs

/-- The JSON encoder of the demo worlds.  It fails, before it writes, on an
instant outside the years 0 to 9999 and on the document `a: .nan` (JSON has no
NaN); it writes everything else, strings as `demoWireString` has them. -/
def demoEncodeJSON : Payload String → Encoded String
  | .file r =>
    if timeFitsJSON r.Timestamp then
      match r.Content with
      | .decoded doc =>
        if doc = "a: .nan" then .failed (.other "json: unsupported value: NaN")
        else .written (.file r)
      | .text bytes => .written (.file { r with Content := .text (demoWireString bytes) })
    else .failed (.other "Time.MarshalJSON: year outside of range [0,9999]")
  | .tree r =>
    if timeFitsJSON r.Timestamp then .written (.tree r)
    else .failed (.other "Time.MarshalJSON: year outside of range [0,9999]")
  | .anyMap m =>
    if m.all (fun kv => match kv.2 with
        | .time t => timeFitsJSON t
        | _ => true) then .written (.anyMap m)
    else .failed (.other "Time.MarshalJSON: year outside of range [0,9999]")
  | .stringMap m => .written (.stringMap m)
  | .noContent => .written .noContent

/-- A world whose state counts the pulls made.  The repository at `repo` opens
as reference `7`; its HEAD is `aaa` until the first pull and `bbb` after it; the
pull itself fails once HEAD has moved.  No key file exists.  `secret.txt` lies
next to the directory `repos`.  The working copy holds a readme, the YAML file
`nan.yaml` with the text `a: .nan`, which parses, and `binary.bin` with the
bytes `FF FE 41`. -/
def demoEnv : Env Nat String where
  PlainOpen := fun _ path => if path = "repo" then .ok 7 else .error (.other "repository does not exist")
  Worktree := fun _ _ => none
  Pull := fun st _ _ => (some (.other "worktree contains unstaged changes"), st + 1)
  Head := fun st _ => .ok (if st = 0 then "aaa" else "bbb")
  CommitObject := fun _ _ _ => .ok 5
  NewPublicKeysFromFile := fun _ _ _ _ => .error (.other "no key")
  Getenv := fun _ _ => "/home/u"
  fileAt := fun _ p =>
    if p = "repo/README.md" then .regular [35, 32, 84]
    else if p = "repo/nan.yaml" then .regular [97, 58, 32, 46, 110, 97, 110]
    else if p = "repo/binary.bin" then .regular [255, 254, 65]
    else if p = "secret.txt" then .regular [1, 2, 3]
    else if p = "repo" then .directory
    else if p = "repos/foo" then .directory
    else .missing
  treeAt := fun _ p => if p = "repo" then demoTree else .noStat (.other "lstat: no such file or directory")
  Now := fun _ => 99
  jsonUnmarshal := fun _ => .ok "doc"
  yamlUnmarshal := fun bytes =>
    if bytes = [97, 58, 32, 46, 110, 97, 110] then .ok "a: .nan"
    else .error (.other "yaml: did not find expected node content")
  encodeJSON := demoEncodeJSON
  encodeYAML := fun p => .written p
  Pull_upToDate := by
    intro st repo options h
    cases h

/-- A world like `demoEnv` whose pull finds nothing new and changes nothing. -/
def quietEnv : Env Nat String :=
  { demoEnv with
    Pull := fun st _ _ => (some .NoErrAlreadyUpToDate, st)
    Pull_upToDate := fun _ _ _ _ _ => rfl }

/-- A world like `demoEnv` with a default key file under `$HOME`. -/
def keyEnv : Env Nat String :=
  { demoEnv with
    fileAt := fun _ p => if p = "/home/u/.ssh/id_rsa" then .regular [45] else .missing
    NewPublicKeysFromFile := fun _ user pemFile _ =>
      if pemFile = "/home/u/.ssh/id_rsa" then .ok ⟨user, [45]⟩
      else .error (.other "open: no such file or directory") }

/-- A world in which no repository opens. -/
def closedEnv : Env Nat String :=
  { demoEnv with PlainOpen := fun _ _ => .error (.other "repository does not exist") }

/-- A world like `demoEnv` whose HEAD commit was made in the year 10000. -/
def farEnv : Env Nat String :=
  { demoEnv with CommitObject := fun _ _ _ => .ok 253402300800 }

/-- The service on `repo` with the repository already open. -/
def openService : GitService := ⟨"repo", some 7, "", ""⟩

/-- The service on `repo` before the repository is opened. -/
def freshService : GitService := ⟨"repo", none, "", ""⟩

/-! ## The handlers, case by case -/

/-- The status and the payload `returnResponse` hands to the encoder. -/
theorem returnResponse_status (env : Env σ V) (code : Nat) (format : String) (body : Payload V) :
    (returnResponse env code format body).status = code ∧
    (returnResponse env code format body).body = body := by
  unfold returnResponse Yaml c_JSON
  split <;> simp

/-- The encoder `returnResponse` runs: YAML for the format `yaml`, JSON
otherwise. -/
theorem returnResponse_encoded (env : Env σ V) (code : Nat) (format : String)
    (body : Payload V) :
    (returnResponse env code format body).encoded =
      if format = "yaml" then env.encodeYAML body else env.encodeJSON body := by
  unfold returnResponse Yaml c_JSON
  split <;> rfl

/-- A handler returns no error exactly when its encoder wrote the response. -/
theorem err_eq_none_iff (r : Response V) : r.err = none ↔ ∃ wire, r.encoded = .written wire := by
  unfold Response.err
  cases r.encoded <;> simp

/-- A response the encoder wrote is answered with the status handed over. -/
theorem serve_of_written (env : Env σ V) (r : Response V) (wire : Payload V)
    (h : r.encoded = .written wire) :
    r.err = none ∧ serve env r = ⟨r.status, some wire⟩ := by
  simp [Response.err, serve, h]

/-- An encoder that fails makes the handler return its error. -/
theorem err_of_not_written (r : Response V) (err : GoError)
    (h : r.encoded = .failed err ∨ r.encoded = .broken err) : r.err = some err := by
  rcases h with h | h <;> simp [Response.err, h]

/-- The server answers with the status the handler handed over, or with the 500
of the error handler, or with the empty 200 of `net/http`. -/
theorem serve_status (env : Env σ V) (r : Response V) :
    (serve env r).status = r.status ∨
    ((∃ err, r.encoded = .failed err) ∧
      ((serve env r).status = 500 ∨ serve env r = ⟨200, some .noContent⟩)) := by
  unfold serve
  cases h : r.encoded with
  | written wire => exact Or.inl rfl
  | broken err => exact Or.inl rfl
  | failed err =>
    right
    refine ⟨⟨err, rfl⟩, ?_⟩
    cases env.encodeJSON (.anyMap [("message", .str "Internal Server Error")]) with
    | written wire => exact Or.inl rfl
    | broken err => exact Or.inl rfl
    | failed err => exact Or.inr rfl

/-- A failed read ends in `c.NoContent(404)`. -/
theorem GetFileHandler_of_read_error (env : Env σ V) (st : σ) (s : GitService)
    (filePath format : String) (err : GoError)
    (h : os_ReadFile env st (filepath_Join [s.RepoPath, filePath]) = .error err) :
    GetFileHandler env st s filePath format = (c_NoContent StatusNotFound, s) := by
  simp [GetFileHandler, h]

/-- A failed parse ends in the response of `decodeContent`. -/
theorem GetFileHandler_of_decode_error (env : Env σ V) (st : σ) (s : GitService)
    (filePath format : String) (bytes : Bytes) (resp : Response V)
    (h : os_ReadFile env st (filepath_Join [s.RepoPath, filePath]) = .ok bytes)
    (hd : decodeContent env filePath bytes = .error resp) :
    GetFileHandler env st s filePath format = (resp, s) := by
  simp [GetFileHandler, h, hd]

/-- A read and decoded file ends in `returnResponse` with status 200, the
content and the commit metadata. -/
theorem GetFileHandler_of_content (env : Env σ V) (st : σ) (s : GitService)
    (filePath format : String) (bytes : Bytes) (content : Content V)
    (h : os_ReadFile env st (filepath_Join [s.RepoPath, filePath]) = .ok bytes)
    (hd : decodeContent env filePath bytes = .ok content) :
    GetFileHandler env st s filePath format =
      (returnResponse env StatusOK (if format ≠ "yaml" then "json" else format)
        (.file ⟨content, (getCommitInfo env st s).timestamp, (getCommitInfo env st s).commitHash,
          (getCommitInfo env st s).offline⟩), (getCommitInfo env st s).service) := by
  simp only [GetFileHandler, h, hd]
  cases hoff : (getCommitInfo env st s).offline <;> simp [hoff]

/-- The response of `decodeContent` for a failed parse: `c.JSON` with status 500
and an error payload. -/
theorem decodeContent_error (env : Env σ V) (filePath : String) (bytes : Bytes)
    (resp : Response V) (hd : decodeContent env filePath bytes = .error resp) :
    ∃ msg, resp = c_JSON env StatusInternalServerError (.stringMap [("error", msg)]) := by
  unfold decodeContent at hd
  split at hd
  · split at hd
    · cases hd; exact ⟨_, rfl⟩
    · cases hd
  · split at hd
    · split at hd
      · cases hd; exact ⟨_, rfl⟩
      · cases hd
    · cases hd

/-- The tree handler ends in `returnResponse` with 500 or with the tree
response and the commit metadata. -/
theorem GetTreeHandler_cases (env : Env σ V) (st : σ) (s : GitService) (format : String) :
    (∃ files err, filepath_Walk env st s.RepoPath (treeWalkFn s.RepoPath) [] = (files, some err) ∧
      GetTreeHandler env st s format =
        (returnResponse env StatusInternalServerError "json"
          (.stringMap [("error", "Failed to build file tree")]), s)) ∨
    (∃ files, filepath_Walk env st s.RepoPath (treeWalkFn s.RepoPath) [] = (files, none) ∧
      GetTreeHandler env st s format =
        (returnResponse env StatusOK (if format ≠ "yaml" then "json" else format)
          (.tree ⟨files, (getCommitInfo env st s).timestamp, (getCommitInfo env st s).commitHash,
            (getCommitInfo env st s).offline⟩), (getCommitInfo env st s).service)) := by
  unfold GetTreeHandler
  rcases hw : filepath_Walk env st s.RepoPath (treeWalkFn s.RepoPath) [] with ⟨files, _ | err⟩
  · right; exact ⟨files, rfl, by simp⟩
  · left; exact ⟨files, err, rfl, by simp⟩

/-- A failed derivation of the hash or of the timestamp sets the offline flag. -/
theorem getCommitInfo_offline_of_failure (env : Env σ V) (st : σ) (s : GitService)
    (h : (∃ err, (s.GetLatestCommitHash env st).1 = .error err) ∨
      (∃ err, ((s.GetLatestCommitHash env st).2.GetCommitTimestamp env st).1 = .error err)) :
    (getCommitInfo env st s).offline = true := by
  cases h1 : (s.GetLatestCommitHash env st).1 <;>
    cases h2 : ((s.GetLatestCommitHash env st).2.GetCommitTimestamp env st).1 <;>
    simp [getCommitInfo, h1, h2]
  simp [h1, h2] at h

/-! ## Commit metadata and the offline flag -/

/-- C2: the offline flag of `getCommitInfo` is true exactly when
`GetLatestCommitHash` or the `GetCommitTimestamp` that follows it returns an
error; it is false exactly when both succeed, and then the hash and timestamp
returned are the derived ones; the file and the tree response carry the same
flag. -/
theorem getCommitInfo_offline_iff (env : Env σ V) (st : σ) (s : GitService)
    (filePath format : String) :
    (((getCommitInfo env st s).offline = true ↔
        ((∃ err, (s.GetLatestCommitHash env st).1 = .error err) ∨
         (∃ err, ((s.GetLatestCommitHash env st).2.GetCommitTimestamp env st).1 = .error err))) ∧
      ((getCommitInfo env st s).offline = false ↔
        ((∃ hash, (s.GetLatestCommitHash env st).1 = .ok hash) ∧
         (∃ t, ((s.GetLatestCommitHash env st).2.GetCommitTimestamp env st).1 = .ok t)))) ∧
    (∀ hash t, (s.GetLatestCommitHash env st).1 = .ok hash →
        ((s.GetLatestCommitHash env st).2.GetCommitTimestamp env st).1 = .ok t →
        (getCommitInfo env st s).offline = false ∧
        (getCommitInfo env st s).commitHash = hash ∧
        (getCommitInfo env st s).timestamp = t) ∧
    (∀ r, (GetFileHandler env st s filePath format).1.body = .file r →
        r.Offline = (getCommitInfo env st s).offline) ∧
    (∀ r, (GetTreeHandler env st s format).1.body = .tree r →
        r.Offline = (getCommitInfo env st s).offline) := by
  refine ⟨⟨?_, ?_⟩, ?_, ?_, ?_⟩
  · cases h1 : (s.GetLatestCommitHash env st).1 <;>
      cases h2 : ((s.GetLatestCommitHash env st).2.GetCommitTimestamp env st).1 <;>
      simp [getCommitInfo, h1, h2]
  · cases h1 : (s.GetLatestCommitHash env st).1 <;>
      cases h2 : ((s.GetLatestCommitHash env st).2.GetCommitTimestamp env st).1 <;>
      simp [getCommitInfo, h1, h2]
  · intro hash t h1 h2
    simp [getCommitInfo, h1, h2]
  · intro r hr
    cases hread : os_ReadFile env st (filepath_Join [s.RepoPath, filePath]) with
    | error err =>
      rw [GetFileHandler_of_read_error env st s filePath format err hread] at hr
      cases hr
    | ok bytes =>
      cases hd : decodeContent env filePath bytes with
      | error resp =>
        rw [GetFileHandler_of_decode_error env st s filePath format bytes resp hread hd] at hr
        obtain ⟨msg, hmsg⟩ := decodeContent_error env filePath bytes resp hd
        rw [hmsg] at hr
        cases hr
      | ok content =>
        rw [GetFileHandler_of_content env st s filePath format bytes content hread hd] at hr
        simp only [(returnResponse_status _ _ _ _).2] at hr
        cases hr
        rfl
  · intro r hr
    rcases GetTreeHandler_cases env st s format with ⟨files, err, _, h⟩ | ⟨files, _, h⟩
    · rw [h] at hr
      simp only [(returnResponse_status _ _ _ _).2] at hr
      cases hr
    · rw [h] at hr
      simp only [(returnResponse_status _ _ _ _).2] at hr
      cases hr
      rfl

/-- C2 on both sides: in `closedEnv` no repository opens, both derivations fail
and the flag is set; in `demoEnv` both succeed, the flag is clear and the
metadata is the derived one. -/
theorem getCommitInfo_offline_iff_witness :
    (getCommitInfo closedEnv 0 freshService).offline = true ∧
    ((getCommitInfo demoEnv 0 freshService).offline = false ∧
      (getCommitInfo demoEnv 0 freshService).commitHash = "aaa" ∧
      (getCommitInfo demoEnv 0 freshService).timestamp = 5) :=
  ⟨((getCommitInfo_offline_iff closedEnv 0 freshService "README.md" "json").1.1).2
      (Or.inl ⟨_, rfl⟩),
   (getCommitInfo_offline_iff demoEnv 0 freshService "README.md" "json").2.1 "aaa" 5 rfl rfl⟩

/-! ## The update handler -/

/-- The update handler after a pull that returned an error: `c.JSON` with
status 200 and the offline message. -/
theorem UpdateRepoHandler_of_pull_error (env : Env σ V) (st : σ) (s : GitService) (err : GoError)
    (h : (s.PullRepo env st).err = some err) :
    UpdateRepoHandler env st s =
      (c_JSON env StatusOK (.anyMap
          [("message", .str "Failed to update repo, working in offline mode"),
           ("commit_hash",
             .str (getCommitInfo env (s.PullRepo env st).state (s.PullRepo env st).service).commitHash),
           ("timestamp",
             .time (getCommitInfo env (s.PullRepo env st).state (s.PullRepo env st).service).timestamp)]),
        (getCommitInfo env (s.PullRepo env st).state (s.PullRepo env st).service).service,
        (s.PullRepo env st).state) := by
  simp [UpdateRepoHandler, h]

/-- The update handler after a pull that returned no error: `c.JSON` with
status 200 and the message of success. -/
theorem UpdateRepoHandler_of_pulled (env : Env σ V) (st : σ) (s : GitService)
    (h : (s.PullRepo env st).err = none) :
    UpdateRepoHandler env st s =
      (c_JSON env StatusOK (.anyMap
          [("message", .str "Repo updated"),
           ("commit_hash",
             .str (getCommitInfo env (s.PullRepo env st).state (s.PullRepo env st).service).commitHash),
           ("timestamp",
             .time (getCommitInfo env (s.PullRepo env st).state (s.PullRepo env st).service).timestamp)]),
        (getCommitInfo env (s.PullRepo env st).state (s.PullRepo env st).service).service,
        (s.PullRepo env st).state) := by
  simp [UpdateRepoHandler, h]

/-- The update handler always ends in `c.JSON` with status 200 and a map of a
message, the commit hash and the timestamp derived after the pull attempt. -/
theorem UpdateRepoHandler_shape (env : Env σ V) (st : σ) (s : GitService) :
    ∃ message,
      (UpdateRepoHandler env st s).1 =
        c_JSON env StatusOK (.anyMap [("message", .str message),
          ("commit_hash",
            .str (getCommitInfo env (s.PullRepo env st).state (s.PullRepo env st).service).commitHash),
          ("timestamp",
            .time (getCommitInfo env (s.PullRepo env st).state (s.PullRepo env st).service).timestamp)]) ∧
      (message = "Repo updated" ↔ (s.PullRepo env st).err = none) ∧
      (message = "Failed to update repo, working in offline mode" ↔
        (s.PullRepo env st).err ≠ none) := by
  cases h : (s.PullRepo env st).err with
  | none =>
    rw [UpdateRepoHandler_of_pulled env st s h]
    exact ⟨"Repo updated", rfl, by simp, by simp⟩
  | some err =>
    rw [UpdateRepoHandler_of_pull_error env st s err h]
    exact ⟨"Failed to update repo, working in offline mode", rfl, by simp, by simp⟩

/-- C3 (as amended): for every mirror state and every outcome of `PullRepo`,
`UpdateRepoHandler` hands `c.JSON` the status 200 and a map whose message is
"Repo updated" exactly when `PullRepo` returned no error and "Failed to update
repo, working in offline mode" otherwise, with the commit hash and timestamp
`getCommitInfo` derives after the pull attempt; it returns no error and the
answer is that response with status 200 whenever `c.JSON` returns no error, and
it returns the error of `c.JSON` otherwise. -/
theorem UpdateRepoHandler_ok_if_encoded (env : Env σ V) (st : σ) (s : GitService) :
    ∃ message,
      (UpdateRepoHandler env st s).1.status = 200 ∧
      (UpdateRepoHandler env st s).1.body =
        .anyMap [("message", .str message),
          ("commit_hash",
            .str (getCommitInfo env (s.PullRepo env st).state (s.PullRepo env st).service).commitHash),
          ("timestamp",
            .time (getCommitInfo env (s.PullRepo env st).state (s.PullRepo env st).service).timestamp)] ∧
      (UpdateRepoHandler env st s).1.encoded = env.encodeJSON (UpdateRepoHandler env st s).1.body ∧
      (message = "Repo updated" ↔ (s.PullRepo env st).err = none) ∧
      (message = "Failed to update repo, working in offline mode" ↔
        (s.PullRepo env st).err ≠ none) ∧
      (∀ wire, env.encodeJSON (UpdateRepoHandler env st s).1.body = .written wire →
        (UpdateRepoHandler env st s).1.err = none ∧
        serve env (UpdateRepoHandler env st s).1 = ⟨200, some wire⟩) ∧
      (∀ err, (env.encodeJSON (UpdateRepoHandler env st s).1.body = .failed err ∨
          env.encodeJSON (UpdateRepoHandler env st s).1.body = .broken err) →
        (UpdateRepoHandler env st s).1.err = some err) := by
  obtain ⟨message, hshape, h1, h2⟩ := UpdateRepoHandler_shape env st s
  refine ⟨message, ?_, ?_, ?_, h1, h2, ?_, ?_⟩
  · rw [hshape]; rfl
  · rw [hshape]; rfl
  · rw [hshape]; rfl
  · intro wire hw
    have henc : (UpdateRepoHandler env st s).1.encoded = .written wire := by
      rw [← hw, hshape]; rfl
    have hst : (UpdateRepoHandler env st s).1.status = 200 := by rw [hshape]; rfl
    have := serve_of_written env _ wire henc
    rw [hst] at this
    exact this
  · intro err herr
    apply err_of_not_written
    have henc : (UpdateRepoHandler env st s).1.encoded
        = env.encodeJSON (UpdateRepoHandler env st s).1.body := by rw [hshape]; rfl
    rw [henc]
    exact herr

/-- C3 (as amended) in `demoEnv`, whose pull fails and whose encoder writes the
response: the answer is 200 with the offline message. -/
theorem UpdateRepoHandler_ok_if_encoded_witness :
    (openService.PullRepo demoEnv 0).err ≠ none ∧
    (UpdateRepoHandler demoEnv 0 openService).1.err = none ∧
    serve demoEnv (UpdateRepoHandler demoEnv 0 openService).1 =
      ⟨200, some (.anyMap [("message", .str "Failed to update repo, working in offline mode"),
        ("commit_hash", .str "bbb"), ("timestamp", .time 5)])⟩ :=
  ⟨by decide,
   match UpdateRepoHandler_ok_if_encoded demoEnv 0 openService with
   | ⟨_, _, _, _, _, _, hw, _⟩ => hw _ rfl⟩

/-- C3 as stated fails: in `farEnv` the HEAD commit was made in the year 10000,
the JSON encoder refuses that timestamp, `UpdateRepoHandler` returns the
encoder's error without having written, and the server answers 500. -/
theorem UpdateRepoHandler_encode_error :
    (UpdateRepoHandler farEnv 0 openService).1.body =
      .anyMap [("message", .str "Failed to update repo, working in offline mode"),
        ("commit_hash", .str "bbb"), ("timestamp", .time 253402300800)] ∧
    (UpdateRepoHandler farEnv 0 openService).1.err =
      some (.other "Time.MarshalJSON: year outside of range [0,9999]") ∧
    serve farEnv (UpdateRepoHandler farEnv 0 openService).1 =
      ⟨500, some (.anyMap [("message", .str "Internal Server Error")])⟩ :=
  ⟨rfl, rfl, rfl⟩

/-! ## Credential selection -/

/-- C4: `getAuth` picks one credential, first match wins: basic auth with the
non-empty username `token` and the token as password when the token is set;
else the key loaded from `SSHKeyPath`, or the error of that load, when the path
is set; else the key loaded from `$HOME/.ssh/id_rsa` when that file exists; else
no credential and no error. -/
theorem getAuth_precedence (env : Env σ V) (st : σ) (s : GitService) :
    (s.Token ≠ "" →
      s.getAuth env st = .ok (some (.BasicAuth "token" s.Token)) ∧ ("token" : String) ≠ "") ∧
    (s.Token = "" → s.SSHKeyPath ≠ "" →
      (∀ keys, env.NewPublicKeysFromFile st "git" s.SSHKeyPath "" = .ok keys →
        s.getAuth env st = .ok (some (.PublicKeys keys))) ∧
      (∀ err, env.NewPublicKeysFromFile st "git" s.SSHKeyPath "" = .error err →
        s.getAuth env st = .error err)) ∧
    (s.Token = "" → s.SSHKeyPath = "" →
      os_Stat env st (filepath_Join [env.Getenv st "HOME", ".ssh", "id_rsa"]) = none →
      (∀ keys, env.NewPublicKeysFromFile st "git"
          (filepath_Join [env.Getenv st "HOME", ".ssh", "id_rsa"]) "" = .ok keys →
        s.getAuth env st = .ok (some (.PublicKeys keys))) ∧
      (∀ err, env.NewPublicKeysFromFile st "git"
          (filepath_Join [env.Getenv st "HOME", ".ssh", "id_rsa"]) "" = .error err →
        s.getAuth env st = .error err)) ∧
    (s.Token = "" → s.SSHKeyPath = "" →
      os_Stat env st (filepath_Join [env.Getenv st "HOME", ".ssh", "id_rsa"]) ≠ none →
      s.getAuth env st = .ok none) := by
  refine ⟨?_, ?_, ?_, ?_⟩
  · intro h
    exact ⟨by simp [GitService.getAuth, h], by decide⟩
  · intro ht hk
    constructor
    · intro keys hl
      simp [GitService.getAuth, ht, hk, hl]
    · intro err hl
      simp [GitService.getAuth, ht, hk, hl]
  · intro ht hk hs
    constructor
    · intro keys hl
      simp [GitService.getAuth, ht, hk, hs, hl]
    · intro err hl
      simp [GitService.getAuth, ht, hk, hs, hl]
  · intro ht hk hs
    simp [GitService.getAuth, ht, hk, hs]

/-- C4 on each branch: a token; a key path whose load fails, with no fallback;
a default key file that exists under `$HOME`; and nothing at all. -/
theorem getAuth_precedence_witness :
    (⟨"repo", none, "secret", "/k"⟩ : GitService).getAuth demoEnv 0
        = .ok (some (.BasicAuth "token" "secret")) ∧
    (⟨"repo", none, "", "/k"⟩ : GitService).getAuth keyEnv 0
        = .error (.other "open: no such file or directory") ∧
    (⟨"repo", none, "", ""⟩ : GitService).getAuth keyEnv 0
        = .ok (some (.PublicKeys ⟨"git", [45]⟩)) ∧
    (⟨"repo", none, "", ""⟩ : GitService).getAuth demoEnv 0 = .ok none ∧
    filepath_Join [demoEnv.Getenv 0 "HOME", ".ssh", "id_rsa"] = "/home/u/.ssh/id_rsa" :=
  ⟨((getAuth_precedence demoEnv 0 ⟨"repo", none, "secret", "/k"⟩).1 (by decide)).1,
   ((getAuth_precedence keyEnv 0 ⟨"repo", none, "", "/k"⟩).2.1 rfl (by decide)).2 _ rfl,
   ((getAuth_precedence keyEnv 0 ⟨"repo", none, "", ""⟩).2.2.1 rfl rfl rfl).1 _ rfl,
   (getAuth_precedence demoEnv 0 ⟨"repo", none, "", ""⟩).2.2.2 rfl rfl (by decide),
   by decide⟩

/-! ## The file handler -/

/-- A path that ends in `.json` ends neither in `.yaml` nor in `.yml`. -/
theorem hasSuffix_json_exclusive (p : String) (h : strings_HasSuffix p ".json" = true) :
    strings_HasSuffix p ".yaml" = false ∧ strings_HasSuffix p ".yml" = false := by
  have hj : (".json" : String).data = ['.', 'j', 's', 'o', 'n'] := by decide
  have hy : (".yaml" : String).data = ['.', 'y', 'a', 'm', 'l'] := by decide
  have hm : (".yml" : String).data = ['.', 'y', 'm', 'l'] := by decide
  unfold strings_HasSuffix at h ⊢
  rw [hj] at h
  rw [hy, hm]
  rw [List.isSuffixOf_iff_suffix] at h
  obtain ⟨t, ht⟩ := h
  have hlast : p.data.getLast? = some 'n' := by
    rw [← ht]; simp [List.getLast?_append]
  constructor
  · cases hc : List.isSuffixOf ['.', 'y', 'a', 'm', 'l'] p.data with
    | false => rfl
    | true =>
      rw [List.isSuffixOf_iff_suffix] at hc
      obtain ⟨u, hu⟩ := hc
      rw [← hu] at hlast
      simp [List.getLast?_append] at hlast
  · cases hc : List.isSuffixOf ['.', 'y', 'm', 'l'] p.data with
    | false => rfl
    | true =>
      rw [List.isSuffixOf_iff_suffix] at hc
      obtain ⟨u, hu⟩ := hc
      rw [← hu] at hlast
      simp [List.getLast?_append] at hlast

/-- The parse fails exactly for a `.json` path whose JSON parse fails or a
`.yaml`/`.yml` path whose YAML parse fails. -/
theorem decodeContent_error_iff (env : Env σ V) (filePath : String) (bytes : Bytes) :
    (∃ resp, decodeContent env filePath bytes = .error resp) ↔ parseFails env filePath bytes := by
  unfold parseFails
  constructor
  · rintro ⟨resp, hd⟩
    unfold decodeContent at hd
    split at hd
    · rename_i hj
      left
      refine ⟨hj, ?_⟩
      split at hd
      · rename_i e he; exact ⟨e, he⟩
      · cases hd
    · split at hd
      · rename_i hy
        right
        refine ⟨by simpa using hy, ?_⟩
        split at hd
        · rename_i e he; exact ⟨e, he⟩
        · cases hd
      · cases hd
  · rintro (⟨hj, e, he⟩ | ⟨hy, e, he⟩)
    · exact ⟨c_JSON env StatusInternalServerError (.stringMap [("error", "Failed to parse JSON")]),
        by simp only [decodeContent, hj, he, if_true]⟩
    · have hnj : strings_HasSuffix filePath ".json" = false := by
        cases hj : strings_HasSuffix filePath ".json" with
        | false => rfl
        | true =>
          have := hasSuffix_json_exclusive filePath hj
          rcases hy with hy | hy <;> simp [this.1, this.2] at hy
      refine ⟨c_JSON env StatusInternalServerError (.stringMap [("error", "Failed to parse YAML")]), ?_⟩
      have hy' : (strings_HasSuffix filePath ".yaml" = true ∨
          strings_HasSuffix filePath ".yml" = true) := hy
      simp only [decodeContent, hnj, he]
      rw [if_neg (by simp), if_pos hy']

/-- Where the handler ends once the file is read: in `c.JSON` with status 500
and an error payload when the parse fails, in `returnResponse` with status 200
and the file response otherwise. -/
theorem GetFileHandler_ends (env : Env σ V) (st : σ) (s : GitService)
    (filePath format : String) (bytes : Bytes)
    (hread : os_ReadFile env st (filepath_Join [s.RepoPath, filePath]) = .ok bytes) :
    (parseFails env filePath bytes ∧
      ∃ msg, (GetFileHandler env st s filePath format).1
        = c_JSON env 500 (.stringMap [("error", msg)])) ∨
    (¬ parseFails env filePath bytes ∧
      ∃ r, (GetFileHandler env st s filePath format).1
          = returnResponse env 200 (if format ≠ "yaml" then "json" else format) (.file r) ∧
        (strings_HasSuffix filePath ".json" = false →
          strings_HasSuffix filePath ".yaml" = false →
          strings_HasSuffix filePath ".yml" = false → r.Content = .text bytes)) := by
  cases hd : decodeContent env filePath bytes with
  | error resp =>
    left
    refine ⟨(decodeContent_error_iff env filePath bytes).1 ⟨resp, hd⟩, ?_⟩
    rw [GetFileHandler_of_decode_error env st s filePath format bytes resp hread hd]
    exact decodeContent_error env filePath bytes resp hd
  | ok content =>
    right
    refine ⟨?_, ?_⟩
    · intro hp
      obtain ⟨resp, hresp⟩ := (decodeContent_error_iff env filePath bytes).2 hp
      rw [hresp] at hd
      cases hd
    · rw [GetFileHandler_of_content env st s filePath format bytes content hread hd]
      refine ⟨_, rfl, ?_⟩
      intro hj hy hm
      simp [decodeContent, hj, hy, hm] at hd
      exact hd.symm

/-- C7 (as amended): `GetFileHandler` answers 404 with an empty body exactly
when reading `RepoPath` joined with the path fails.  When the read succeeds, the
path ends in `.json`, `.yaml` or `.yml` and the parse that belongs to the suffix
fails, it ends in `c.JSON` with status 500 and an error payload; in every other
case it ends in `returnResponse` with status 200 and a file response whose
content, for a path with none of the suffixes, is the bytes read, unchanged.
The handler returns no error exactly when the encoder wrote the response, and
then the answer has the status handed over, so that it is 500 exactly when the
parse failed and 200 in every other case, and its body is the encoder's
rendering; when the encoder returns an error, the handler returns that
error. -/
theorem GetFileHandler_answers (env : Env σ V) (st : σ) (s : GitService)
    (filePath format : String) :
    (((serve env (GetFileHandler env st s filePath format).1).status = 404 ∧
        (serve env (GetFileHandler env st s filePath format).1).body = some .noContent) ↔
      ∃ err, os_ReadFile env st (filepath_Join [s.RepoPath, filePath]) = .error err) ∧
    (∀ bytes, os_ReadFile env st (filepath_Join [s.RepoPath, filePath]) = .ok bytes →
      (parseFails env filePath bytes →
        ∃ msg, (GetFileHandler env st s filePath format).1
          = c_JSON env 500 (.stringMap [("error", msg)])) ∧
      (¬ parseFails env filePath bytes →
        ∃ r, (GetFileHandler env st s filePath format).1
            = returnResponse env 200 (if format ≠ "yaml" then "json" else format) (.file r) ∧
          (strings_HasSuffix filePath ".json" = false →
            strings_HasSuffix filePath ".yaml" = false →
            strings_HasSuffix filePath ".yml" = false → r.Content = .text bytes)) ∧
      ((GetFileHandler env st s filePath format).1.err = none →
        ((serve env (GetFileHandler env st s filePath format).1).status = 500 ↔
          parseFails env filePath bytes) ∧
        ((serve env (GetFileHandler env st s filePath format).1).status = 200 ↔
          ¬ parseFails env filePath bytes))) ∧
    ((GetFileHandler env st s filePath format).1.err = none ↔
      ∃ wire, (GetFileHandler env st s filePath format).1.encoded = .written wire) ∧
    (∀ wire, (GetFileHandler env st s filePath format).1.encoded = .written wire →
      serve env (GetFileHandler env st s filePath format).1
        = ⟨(GetFileHandler env st s filePath format).1.status, some wire⟩) ∧
    (∀ err, ((GetFileHandler env st s filePath format).1.encoded = .failed err ∨
        (GetFileHandler env st s filePath format).1.encoded = .broken err) →
      (GetFileHandler env st s filePath format).1.err = some err) := by
  refine ⟨?_, ?_, err_eq_none_iff _, fun wire h => (serve_of_written env _ wire h).2,
    fun err h => err_of_not_written _ err h⟩
  · cases hread : os_ReadFile env st (filepath_Join [s.RepoPath, filePath]) with
    | error err =>
      rw [GetFileHandler_of_read_error env st s filePath format err hread]
      exact ⟨fun _ => ⟨err, rfl⟩, fun _ => ⟨rfl, rfl⟩⟩
    | ok bytes =>
      constructor
      · rintro ⟨h404, -⟩
        exfalso
        have hst : (GetFileHandler env st s filePath format).1.status = 500 ∨
            (GetFileHandler env st s filePath format).1.status = 200 := by
          rcases GetFileHandler_ends env st s filePath format bytes hread with
            ⟨_, msg, h⟩ | ⟨_, r, h, _⟩
          · left; rw [h]; rfl
          · right; rw [h, (returnResponse_status _ _ _ _).1]
        rcases serve_status env (GetFileHandler env st s filePath format).1 with
          h | ⟨_, h | h⟩
        · rw [h404] at h
          rcases hst with h' | h' <;> rw [h'] at h <;> simp at h
        · rw [h404] at h; simp at h
        · rw [h] at h404; simp at h404
      · rintro ⟨err, herr⟩
        cases herr
  · intro bytes hread
    refine ⟨?_, ?_, ?_⟩
    · intro hp
      rcases GetFileHandler_ends env st s filePath format bytes hread with
        ⟨_, msg, h⟩ | ⟨hnp, _⟩
      · exact ⟨msg, h⟩
      · exact absurd hp hnp
    · intro hnp
      rcases GetFileHandler_ends env st s filePath format bytes hread with
        ⟨hp, _⟩ | ⟨_, r, h, hc⟩
      · exact absurd hp hnp
      · exact ⟨r, h, hc⟩
    · intro herr
      obtain ⟨wire, hw⟩ := (err_eq_none_iff _).1 herr
      rw [(serve_of_written env _ wire hw).2]
      rcases GetFileHandler_ends env st s filePath format bytes hread with
        ⟨hp, msg, h⟩ | ⟨hnp, r, h, _⟩
      · have hst : (GetFileHandler env st s filePath format).1.status = 500 := by rw [h]; rfl
        simp [hst, hp]
      · have hst : (GetFileHandler env st s filePath format).1.status = 200 := by
          rw [h, (returnResponse_status _ _ _ _).1]
        simp [hst, hnp]

/-- C7 (as amended) at the readme of `demoEnv`: the handler returns no error and
the answer is 200 with the bytes of the file. -/
theorem GetFileHandler_answers_witness :
    (GetFileHandler demoEnv 0 openService "README.md" "json").1.err = none ∧
    serve demoEnv (GetFileHandler demoEnv 0 openService "README.md" "json").1
      = ⟨200, some (.file ⟨.text [35, 32, 84], 5, "aaa", false⟩)⟩ :=
  ⟨((GetFileHandler_answers demoEnv 0 openService "README.md" "json").2.2.1).2 ⟨_, rfl⟩,
   (GetFileHandler_answers demoEnv 0 openService "README.md" "json").2.2.2.1 _ rfl⟩

/-- C7 as stated fails.  In `demoEnv` the file `nan.yaml` is read and its YAML
parse succeeds, yet JSON cannot encode the document: the handler returns the
encoder's error and the server answers 500, not 200.  And `binary.bin` holds
the bytes `FF FE 41` under no parsed suffix: the answer is 200, its content is
the encoder's rendering `EF BF BD EF BF BD 41`, not the bytes of the file. -/
theorem GetFileHandler_encode_error :
    (os_ReadFile demoEnv 0 (filepath_Join [openService.RepoPath, "nan.yaml"])
        = .ok [97, 58, 32, 46, 110, 97, 110] ∧
      demoEnv.yamlUnmarshal [97, 58, 32, 46, 110, 97, 110] = .ok "a: .nan" ∧
      (GetFileHandler demoEnv 0 openService "nan.yaml" "json").1.err
        = some (.other "json: unsupported value: NaN") ∧
      serve demoEnv (GetFileHandler demoEnv 0 openService "nan.yaml" "json").1
        = ⟨500, some (.anyMap [("message", .str "Internal Server Error")])⟩) ∧
    (os_ReadFile demoEnv 0 (filepath_Join [openService.RepoPath, "binary.bin"])
        = .ok [255, 254, 65] ∧
      serve demoEnv (GetFileHandler demoEnv 0 openService "binary.bin" "json").1
        = ⟨200, some (.file ⟨.text [239, 191, 189, 239, 191, 189, 65], 5, "aaa", false⟩)⟩ ∧
      ([239, 191, 189, 239, 191, 189, 65] : Bytes) ≠ [255, 254, 65]) :=
  ⟨⟨rfl, rfl, rfl, rfl⟩, rfl, rfl, by decide⟩

/-! ## Synchronize: what a pull leaves behind -/

/-- `GetLatestCommitHash` on an open repository asks the engine for the HEAD of
that reference and leaves the service as it is. -/
theorem GetLatestCommitHash_of_open (env : Env σ V) (st : σ) (s : GitService) (repo : RepoRef)
    (h : s.Repo = some repo) :
    s.GetLatestCommitHash env st = (env.Head st repo, s) := by
  unfold GitService.GetLatestCommitHash
  simp only [h]
  cases env.Head st repo <;> rfl

/-- `GetLatestCommitHash` on a service whose repository opens at this call. -/
theorem GetLatestCommitHash_of_fresh (env : Env σ V) (st : σ) (s : GitService) (repo : RepoRef)
    (h : s.Repo = none) (ho : env.PlainOpen st s.RepoPath = .ok repo) :
    s.GetLatestCommitHash env st = (env.Head st repo, { s with Repo := some repo }) := by
  unfold GitService.GetLatestCommitHash
  simp only [h, ho]
  cases env.Head st repo <;> rfl

/-- The credential does not depend on the `Repo` field. -/
theorem getAuth_congr_repo (env : Env σ V) (st : σ) (s : GitService) (r : Option RepoRef) :
    ({ s with Repo := r } : GitService).getAuth env st = s.getAuth env st := rfl

/-- `PullRepo` on an open repository never writes the service. -/
theorem PullRepo_service_of_open (env : Env σ V) (st : σ) (s : GitService) (repo : RepoRef)
    (h : s.Repo = some repo) : (s.PullRepo env st).service = s := by
  unfold GitService.PullRepo
  simp only [h]
  split
  · rfl
  · split
    · rfl
    · split
      · rfl
      · split <;> rfl

/-- `PullRepo` that stops before the engine's pull leaves the world as it is. -/
theorem PullRepo_state_of_early_error (env : Env σ V) (st : σ) (s : GitService) (repo : RepoRef)
    (h : s.Repo = some repo)
    (hearly : env.Worktree st repo ≠ none ∨ ∃ e, s.getAuth env st = .error e) :
    (s.PullRepo env st).state = st := by
  unfold GitService.PullRepo
  simp only [h]
  cases hw : env.Worktree st repo with
  | some e => rfl
  | none =>
    rcases hearly with hne | ⟨e, he⟩
    · exact absurd hw hne
    · simp [he]

/-- `PullRepo` once the repository, the worktree and the credential are there:
the engine's error with "already up to date" turned into success, the service
with the reference that opened, the world the engine left. -/
theorem PullRepo_of_pull (env : Env σ V) (st : σ) (s : GitService) (repo : RepoRef)
    (auth : Option AuthMethod)
    (hopen : s.Repo = some repo ∨ (s.Repo = none ∧ env.PlainOpen st s.RepoPath = .ok repo))
    (hwt : env.Worktree st repo = none) (hauth : s.getAuth env st = .ok auth) :
    (s.PullRepo env st).err =
        (if (env.Pull st repo ⟨"origin", false, DefaultSubmoduleRecursionDepth, auth⟩).1
            = some GoError.NoErrAlreadyUpToDate then none
         else (env.Pull st repo ⟨"origin", false, DefaultSubmoduleRecursionDepth, auth⟩).1) ∧
    (s.PullRepo env st).service = { s with Repo := some repo } ∧
    (s.PullRepo env st).state =
        (env.Pull st repo ⟨"origin", false, DefaultSubmoduleRecursionDepth, auth⟩).2 := by
  rcases hopen with h | ⟨h, ho⟩
  · have hs : ({ s with Repo := some repo } : GitService) = s := by
      cases s; simp at h; simp [h]
    rw [hs]
    unfold GitService.PullRepo
    cases auth <;> simp only [h, hwt, hauth] <;> split <;> simp_all
  · unfold GitService.PullRepo
    cases auth <;> simp only [h, ho, hwt, getAuth_congr_repo, hauth] <;> split <;> simp_all

/-- C1 (as amended): a `PullRepo` that returns an error on an already open
repository leaves the service (the `Repo` reference, `RepoPath`, `Token`,
`SSHKeyPath`) exactly as it was; a `GetLatestCommitHash` after it is answered
from the same open reference, without reopening; it returns the same commit
identifier as before when the engine left the HEAD of that reference where it
was, and always when `PullRepo` stopped before the engine's pull (worktree or
credential error). -/
theorem PullRepo_error_keeps_reference (env : Env σ V) (st : σ) (s : GitService)
    (repo : RepoRef) (err : GoError)
    (hrepo : s.Repo = some repo) (herr : (s.PullRepo env st).err = some err) :
    (s.PullRepo env st).service = s ∧
    (s.PullRepo env st).service.GetLatestCommitHash env (s.PullRepo env st).state
      = (env.Head (s.PullRepo env st).state repo, s) ∧
    (env.Head (s.PullRepo env st).state repo = env.Head st repo →
      ((s.PullRepo env st).service.GetLatestCommitHash env (s.PullRepo env st).state).1
        = (s.GetLatestCommitHash env st).1) ∧
    ((env.Worktree st repo ≠ none ∨ ∃ e, s.getAuth env st = .error e) →
      ((s.PullRepo env st).service.GetLatestCommitHash env (s.PullRepo env st).state).1
        = (s.GetLatestCommitHash env st).1) ∧
    (env.Worktree st repo = some err ∨
      (env.Worktree st repo = none ∧ s.getAuth env st = .error err) ∨
      (∃ auth, env.Worktree st repo = none ∧ s.getAuth env st = .ok auth ∧
        (env.Pull st repo ⟨"origin", false, DefaultSubmoduleRecursionDepth, auth⟩).1 = some err ∧
        err ≠ GoError.NoErrAlreadyUpToDate)) := by
  have hs := PullRepo_service_of_open env st s repo hrepo
  refine ⟨hs, ?_, ?_, ?_, ?_⟩
  rotate_left 3
  · cases hw : env.Worktree st repo with
    | some e =>
      left
      simp [GitService.PullRepo, hrepo, hw] at herr
      rw [herr]
    | none =>
      right
      cases ha : s.getAuth env st with
      | error e =>
        left
        simp [GitService.PullRepo, hrepo, hw, ha] at herr
        exact ⟨rfl, by rw [herr]⟩
      | ok auth =>
        right
        obtain ⟨he, -, -⟩ := PullRepo_of_pull env st s repo auth (Or.inl hrepo) hw ha
        rw [herr] at he
        refine ⟨auth, rfl, rfl, ?_⟩
        split at he
        · cases he
        · rename_i hne
          exact ⟨he.symm, fun h => hne (by rw [← he, h])⟩
  · rw [hs, GetLatestCommitHash_of_open env _ s repo hrepo]
  · intro hhead
    rw [hs, GetLatestCommitHash_of_open env _ s repo hrepo,
      GetLatestCommitHash_of_open env _ s repo hrepo]
    exact hhead
  · intro hearly
    rw [hs, PullRepo_state_of_early_error env st s repo hrepo hearly]

/-- C1 (as amended) at `demoEnv`, where the engine's pull fails. -/
theorem PullRepo_error_keeps_reference_witness :
    (openService.PullRepo demoEnv 0).service = openService ∧
    (openService.PullRepo demoEnv 0).service.GetLatestCommitHash demoEnv
        (openService.PullRepo demoEnv 0).state
      = (demoEnv.Head (openService.PullRepo demoEnv 0).state 7, openService) :=
  ⟨(PullRepo_error_keeps_reference demoEnv 0 openService 7
      (.other "worktree contains unstaged changes") rfl rfl).1,
   (PullRepo_error_keeps_reference demoEnv 0 openService 7
      (.other "worktree contains unstaged changes") rfl rfl).2.1⟩

/-- C1 as stated fails: in `demoEnv` the repository is open, `PullRepo` returns
the engine's error and leaves the service as it was, yet the engine had moved
HEAD before it failed, so `GetLatestCommitHash` returns `aaa` before the call
and `bbb` after it. -/
theorem PullRepo_error_head_moved :
    openService.Repo = some 7 ∧
    (openService.PullRepo demoEnv 0).err = some (.other "worktree contains unstaged changes") ∧
    (openService.PullRepo demoEnv 0).service = openService ∧
    (openService.GetLatestCommitHash demoEnv 0).1 = .ok "aaa" ∧
    ((openService.PullRepo demoEnv 0).service.GetLatestCommitHash demoEnv
        (openService.PullRepo demoEnv 0).state).1 = .ok "bbb" :=
  ⟨rfl, rfl, rfl, rfl, rfl⟩

/-- C8 (as amended): when the repository opens, the worktree resolves and the
credential loads, `PullRepo` returns success when the engine's pull reports
"already up to date" just as when it reports no error, and returns the engine's
error unchanged for every other pull error; in the already-up-to-date case the
`Repo` reference is the one that was open before the call (then the service is
untouched) or, when none was, the one `PlainOpen` returned, and the head commit
identifier derived from it is unchanged. -/
theorem PullRepo_already_up_to_date (env : Env σ V) (st : σ) (s : GitService) (repo : RepoRef)
    (auth : Option AuthMethod)
    (hopen : s.Repo = some repo ∨ (s.Repo = none ∧ env.PlainOpen st s.RepoPath = .ok repo))
    (hwt : env.Worktree st repo = none) (hauth : s.getAuth env st = .ok auth) :
    (((env.Pull st repo ⟨"origin", false, DefaultSubmoduleRecursionDepth, auth⟩).1 = none ∨
        (env.Pull st repo ⟨"origin", false, DefaultSubmoduleRecursionDepth, auth⟩).1
          = some GoError.NoErrAlreadyUpToDate) →
      (s.PullRepo env st).err = none) ∧
    (∀ e, (env.Pull st repo ⟨"origin", false, DefaultSubmoduleRecursionDepth, auth⟩).1 = some e →
      e ≠ GoError.NoErrAlreadyUpToDate → (s.PullRepo env st).err = some e) ∧
    ((env.Pull st repo ⟨"origin", false, DefaultSubmoduleRecursionDepth, auth⟩).1
        = some GoError.NoErrAlreadyUpToDate →
      (s.PullRepo env st).service = { s with Repo := some repo } ∧
      (s.Repo = some repo → (s.PullRepo env st).service = s) ∧
      ((s.PullRepo env st).service.GetLatestCommitHash env (s.PullRepo env st).state).1
        = (s.GetLatestCommitHash env st).1) := by
  obtain ⟨herr, hsvc, hstate⟩ := PullRepo_of_pull env st s repo auth hopen hwt hauth
  refine ⟨?_, ?_, ?_⟩
  · rintro (h | h) <;> simp [herr, h]
  · intro e he hne
    simp [herr, he, hne]
  · intro hup
    refine ⟨hsvc, fun h => PullRepo_service_of_open env st s repo h, ?_⟩
    have hhead : env.Head (s.PullRepo env st).state repo = env.Head st repo := by
      rw [hstate]
      exact env.Pull_upToDate st repo _ hup repo
    rw [hsvc, GetLatestCommitHash_of_open env _ { s with Repo := some repo } repo rfl]
    rcases hopen with h | ⟨h, ho⟩
    · rw [GetLatestCommitHash_of_open env st s repo h]
      exact hhead
    · rw [GetLatestCommitHash_of_fresh env st s repo h ho]
      exact hhead

/-- C8 (as amended) at `quietEnv`, whose pull reports "already up to date": the
pull succeeds and the commit identifier is the one from before the call. -/
theorem PullRepo_already_up_to_date_witness :
    (freshService.PullRepo quietEnv 0).err = none ∧
    ((freshService.PullRepo quietEnv 0).service.GetLatestCommitHash quietEnv
        (freshService.PullRepo quietEnv 0).state).1
      = (freshService.GetLatestCommitHash quietEnv 0).1 :=
  ⟨(PullRepo_already_up_to_date quietEnv 0 freshService 7 none (Or.inr ⟨rfl, rfl⟩) rfl rfl).1
      (Or.inr rfl),
   ((PullRepo_already_up_to_date quietEnv 0 freshService 7 none (Or.inr ⟨rfl, rfl⟩) rfl rfl).2.2
      rfl).2.2⟩

/-- C8 as stated fails: on a service whose repository is not yet open and whose
pull reports "already up to date", `PullRepo` succeeds and writes the `Repo`
reference, which was nil before the call. -/
theorem PullRepo_up_to_date_opens_reference :
    quietEnv.PlainOpen 0 freshService.RepoPath = .ok 7 ∧
    quietEnv.Worktree 0 7 = none ∧
    freshService.getAuth quietEnv 0 = .ok none ∧
    (quietEnv.Pull 0 7 ⟨"origin", false, DefaultSubmoduleRecursionDepth, none⟩).1
      = some GoError.NoErrAlreadyUpToDate ∧
    (freshService.PullRepo quietEnv 0).err = none ∧
    freshService.Repo = none ∧
    (freshService.PullRepo quietEnv 0).service.Repo = some 7 :=
  ⟨rfl, rfl, rfl, rfl, rfl, rfl, rfl⟩

/-! ## The response envelope -/

/-- C9 (as amended): every 200 response to get-file and get-tree carries the
payload, the commit identifier, the commit timestamp and an offline flag that
is set whenever the derivation of the hash or of the timestamp failed for that
response; every 200 response to update carries a message, the commit identifier
and the commit timestamp, and no offline indicator.  A response is what the
handler hands to the encoder; when the encoder writes it, it is answered with
that status. -/
theorem responses_carry_metadata (env : Env σ V) (st : σ) (s : GitService)
    (filePath format : String) :
    ((GetFileHandler env st s filePath format).1.status = 200 →
      ∃ r, (GetFileHandler env st s filePath format).1.body = .file r ∧
        (∃ bytes, os_ReadFile env st (filepath_Join [s.RepoPath, filePath]) = .ok bytes ∧
          decodeContent env filePath bytes = .ok r.Content) ∧
        r.CommitHash = (getCommitInfo env st s).commitHash ∧
        r.Timestamp = (getCommitInfo env st s).timestamp ∧
        (((∃ err, (s.GetLatestCommitHash env st).1 = .error err) ∨
          (∃ err, ((s.GetLatestCommitHash env st).2.GetCommitTimestamp env st).1 = .error err)) →
          r.Offline = true)) ∧
    ((GetTreeHandler env st s format).1.status = 200 →
      ∃ r, (GetTreeHandler env st s format).1.body = .tree r ∧
        filepath_Walk env st s.RepoPath (treeWalkFn s.RepoPath) [] = (r.Files, none) ∧
        r.CommitHash = (getCommitInfo env st s).commitHash ∧
        r.Timestamp = (getCommitInfo env st s).timestamp ∧
        (((∃ err, (s.GetLatestCommitHash env st).1 = .error err) ∨
          (∃ err, ((s.GetLatestCommitHash env st).2.GetCommitTimestamp env st).1 = .error err)) →
          r.Offline = true)) ∧
    ((UpdateRepoHandler env st s).1.status = 200 →
      (∃ message,
        (UpdateRepoHandler env st s).1.body =
          .anyMap [("message", .str message),
            ("commit_hash",
              .str (getCommitInfo env (s.PullRepo env st).state (s.PullRepo env st).service).commitHash),
            ("timestamp",
              .time (getCommitInfo env (s.PullRepo env st).state (s.PullRepo env st).service).timestamp)]) ∧
      (UpdateRepoHandler env st s).1.body.offlineIndicator = none) ∧
    (∀ wire, (GetFileHandler env st s filePath format).1.encoded = .written wire →
      serve env (GetFileHandler env st s filePath format).1
        = ⟨(GetFileHandler env st s filePath format).1.status, some wire⟩) ∧
    (∀ wire, (GetTreeHandler env st s format).1.encoded = .written wire →
      serve env (GetTreeHandler env st s format).1
        = ⟨(GetTreeHandler env st s format).1.status, some wire⟩) ∧
    (∀ wire, (UpdateRepoHandler env st s).1.encoded = .written wire →
      serve env (UpdateRepoHandler env st s).1
        = ⟨(UpdateRepoHandler env st s).1.status, some wire⟩) := by
  refine ⟨?_, ?_, ?_, fun wire h => (serve_of_written env _ wire h).2,
    fun wire h => (serve_of_written env _ wire h).2,
    fun wire h => (serve_of_written env _ wire h).2⟩
  · intro hst
    cases hread : os_ReadFile env st (filepath_Join [s.RepoPath, filePath]) with
    | error err =>
      rw [GetFileHandler_of_read_error env st s filePath format err hread] at hst
      simp [c_NoContent, StatusNotFound] at hst
    | ok bytes =>
      cases hd : decodeContent env filePath bytes with
      | error resp =>
        rw [GetFileHandler_of_decode_error env st s filePath format bytes resp hread hd] at hst
        obtain ⟨msg, hmsg⟩ := decodeContent_error env filePath bytes resp hd
        rw [hmsg] at hst
        simp [c_JSON, StatusInternalServerError] at hst
      | ok content =>
        rw [GetFileHandler_of_content env st s filePath format bytes content hread hd]
        simp only [(returnResponse_status _ _ _ _).2]
        exact ⟨_, rfl, ⟨bytes, rfl, hd⟩, rfl, rfl,
          fun h => getCommitInfo_offline_of_failure env st s h⟩
  · intro hst
    rcases GetTreeHandler_cases env st s format with ⟨files, err, _, h⟩ | ⟨files, hw, h⟩
    · rw [h, (returnResponse_status _ _ _ _).1] at hst
      simp [StatusInternalServerError] at hst
    · rw [h]
      simp only [(returnResponse_status _ _ _ _).2]
      exact ⟨_, rfl, hw, rfl, rfl, fun h => getCommitInfo_offline_of_failure env st s h⟩
  · intro _
    obtain ⟨message, hshape, _, _⟩ := UpdateRepoHandler_shape env st s
    rw [hshape]
    exact ⟨⟨message, rfl⟩, rfl⟩

/-- C9 (as amended) at the readme of `closedEnv`, where no repository opens: the
file response is 200 and its offline flag is set. -/
theorem responses_carry_metadata_witness :
    ∃ r, (GetFileHandler closedEnv 0 freshService "README.md" "json").1.body = .file r ∧
      r.Offline = true :=
  match (responses_carry_metadata closedEnv 0 freshService "README.md" "json").1 rfl with
  | ⟨r, hr, _, _, _, hoff⟩ => ⟨r, hr, hoff (Or.inl ⟨_, rfl⟩)⟩

/-- C9 as stated fails for update: in `closedEnv` no repository opens, so the
derivation of the commit hash fails for the response; the response is written
and answered with 200, and it carries no offline indicator. -/
theorem update_response_has_no_offline :
    (UpdateRepoHandler closedEnv 0 freshService).1.status = 200 ∧
    (UpdateRepoHandler closedEnv 0 freshService).1.body =
      .anyMap [("message", .str "Failed to update repo, working in offline mode"),
        ("commit_hash", .str "unknown"), ("timestamp", .time 99)] ∧
    ((freshService.PullRepo closedEnv 0).service.GetLatestCommitHash closedEnv
        (freshService.PullRepo closedEnv 0).state).1
      = .error (.other "repository does not exist") ∧
    (getCommitInfo closedEnv (freshService.PullRepo closedEnv 0).state
        (freshService.PullRepo closedEnv 0).service).offline = true ∧
    (UpdateRepoHandler closedEnv 0 freshService).1.body.offlineIndicator = none ∧
    (UpdateRepoHandler closedEnv 0 freshService).1.err = none ∧
    serve closedEnv (UpdateRepoHandler closedEnv 0 freshService).1 =
      ⟨200, some (.anyMap [("message", .str "Failed to update repo, working in offline mode"),
        ("commit_hash", .str "unknown"), ("timestamp", .time 99)])⟩ ∧
    (Payload.anyMap [("message", .str "Failed to update repo, working in offline mode"),
        ("commit_hash", .str "unknown"), ("timestamp", .time 99)] : Payload String).offlineIndicator
      = none :=
  ⟨rfl, rfl, rfl, rfl, rfl, rfl, rfl, rfl⟩

/-! ## Paths: a trailing separator -/

/-- A path always has a first element. -/
theorem splitSep_ne_nil (l : List Char) : splitSep l ≠ [] := by
  cases l with
  | nil => simp [splitSep]
  | cons c cs =>
    unfold splitSep
    split
    · simp
    · split <;> simp

/-- A trailing separator adds one empty element. -/
theorem splitSep_append_sep (l : List Char) : splitSep (l ++ ['/']) = splitSep l ++ [[]] := by
  induction l with
  | nil => simp [splitSep, isSep]
  | cons c cs ih =>
    rw [List.cons_append]
    unfold splitSep
    rw [ih]
    split
    · simp
    · cases h : splitSep cs with
      | nil => exact absurd h (splitSep_ne_nil cs)
      | cons e es => simp

/-- An empty last element leaves the buffer of `Clean` as it is. -/
theorem cleanLoop_append_empty (rooted : Bool) (es : List (List Char)) (out : List Char)
    (dotdot : Nat) :
    cleanLoop rooted (es ++ [[]]) out dotdot = cleanLoop rooted es out dotdot := by
  induction es generalizing out dotdot with
  | nil => simp [cleanLoop]
  | cons e es ih =>
    rw [List.cons_append]
    unfold cleanLoop
    simp only [ih]

/-- `Clean` ignores a trailing separator. -/
theorem cleanChars_append_sep (path : List Char) (h : path ≠ []) :
    cleanChars (path ++ ['/']) = cleanChars path := by
  cases path with
  | nil => exact absurd rfl h
  | cons c cs =>
    rw [List.cons_append]
    unfold cleanChars
    simp only
    rw [← List.cons_append, splitSep_append_sep, cleanLoop_append_empty]

/-- Joining a non-empty path with the empty string cleans the path. -/
theorem filepath_Join_empty (path : String) (h : path ≠ "") :
    filepath_Join [path, ""] = filepath_Clean path := by
  have hd : path.data ≠ [] := by
    intro hnil
    apply h
    cases path
    simp_all
  unfold filepath_Join filepath_Clean
  congr 1
  show joinChars [path.data, []] = cleanChars path.data
  unfold joinChars
  rw [if_neg hd]
  show cleanChars (path.data ++ ['/']) = cleanChars path.data
  exact cleanChars_append_sep _ hd

/-! ## The file handler does not confine the path -/

/-- C10: `GetFileHandler` reads `filepath.Join(RepoPath, path)` without checking
that the result stays under `RepoPath`.  With the mirror at `repos/foo` the path
`../../secret.txt` joins to `secret.txt`, which is not under `repos/foo`, and the
handler answers 200 with the content of that file.  For the empty path the
joined path is `RepoPath` itself (cleaned), and where that is a directory the
answer is 404 with no content. -/
theorem GetFileHandler_unconfined :
    (filepath_Join ["repos/foo", "../../secret.txt"] = "secret.txt" ∧
      ¬ ("repos/foo".data <+: (filepath_Join ["repos/foo", "../../secret.txt"]).data) ∧
      demoEnv.fileAt 0 "secret.txt" = .regular [1, 2, 3] ∧
      (GetFileHandler demoEnv 0 ⟨"repos/foo", none, "", ""⟩ "../../secret.txt" "json").1.status = 200 ∧
      (∃ r, (GetFileHandler demoEnv 0 ⟨"repos/foo", none, "", ""⟩ "../../secret.txt" "json").1.body
            = .file r ∧ r.Content = .text [1, 2, 3]) ∧
      (GetFileHandler demoEnv 0 ⟨"repos/foo", none, "", ""⟩ "../../secret.txt" "json").1.err = none ∧
      serve demoEnv (GetFileHandler demoEnv 0 ⟨"repos/foo", none, "", ""⟩ "../../secret.txt" "json").1
        = ⟨200, some (.file ⟨.text [1, 2, 3], 99, "unknown", true⟩)⟩) ∧
    (∀ path : String, path ≠ "" → filepath_Join [path, ""] = filepath_Clean path) ∧
    (∀ (σ V : Type) (env : Env σ V) (st : σ) (s : GitService) (format : String),
      env.fileAt st (filepath_Join [s.RepoPath, ""]) = .directory →
      (GetFileHandler env st s "" format).1.status = 404 ∧
      (GetFileHandler env st s "" format).1.body = .noContent ∧
      (GetFileHandler env st s "" format).1.err = none ∧
      serve env (GetFileHandler env st s "" format).1 = ⟨404, some .noContent⟩) := by
  refine ⟨⟨by decide, by decide, rfl, rfl, ⟨_, rfl, rfl⟩, rfl, rfl⟩, filepath_Join_empty, ?_⟩
  intro σ V env st s format hdir
  have hread : os_ReadFile env st (filepath_Join [s.RepoPath, ""])
      = .error (.other "read: is a directory") := by
    simp [os_ReadFile, hdir]
  rw [GetFileHandler_of_read_error env st s "" format _ hread]
  exact ⟨rfl, rfl, rfl, rfl⟩

/-- C10 at the directory `repo` of `demoEnv`: the empty path answers 404. -/
theorem GetFileHandler_unconfined_witness :
    filepath_Join ["repo", ""] = "repo" ∧
    (GetFileHandler demoEnv 0 openService "" "json").1.status = 404 ∧
    (GetFileHandler demoEnv 0 openService "" "json").1.body = .noContent ∧
    (GetFileHandler demoEnv 0 openService "" "json").1.err = none ∧
    serve demoEnv (GetFileHandler demoEnv 0 openService "" "json").1 = ⟨404, some .noContent⟩ :=
  ⟨by decide, GetFileHandler_unconfined.2.2 Nat String demoEnv 0 openService "json" rfl⟩

/-! ## Paths: where `.git` can occur -/

/-- `containsChars` decides the infix relation. -/
theorem containsChars_iff (sub s : List Char) : containsChars sub s = true ↔ sub <:+: s := by
  induction s with
  | nil =>
    cases sub <;> simp [containsChars]
  | cons c cs ih =>
    unfold containsChars
    rw [Bool.or_eq_true, ih, List.isPrefixOf_iff_prefix, List.infix_cons_iff]

/-- A run without a separator that begins a path with a separator in it lies
before that separator. -/
theorem prefix_of_prefix_append_sep (sub x y : List Char) (hsep : '/' ∉ sub)
    (h : sub <+: x ++ '/' :: y) : sub <+: x := by
  induction x generalizing sub with
  | nil =>
    rcases List.prefix_cons_iff.1 h with rfl | ⟨t, rfl, _⟩
    · exact List.nil_prefix
    · simp at hsep
  | cons a x ih =>
    rw [List.cons_append] at h
    rcases List.prefix_cons_iff.1 h with rfl | ⟨t, rfl, ht⟩
    · exact List.nil_prefix
    · have : '/' ∉ t := fun hm => hsep (List.mem_cons_of_mem _ hm)
      exact (List.prefix_cons_inj a).2 (ih t this ht)

/-- A run without a separator inside a path with a separator in it lies on one
side of that separator. -/
theorem infix_of_infix_append_sep (sub x y : List Char) (hsep : '/' ∉ sub)
    (h : sub <:+: x ++ '/' :: y) : sub <:+: x ∨ sub <:+: y := by
  induction x with
  | nil =>
    rcases List.infix_cons_iff.1 h with hp | hi
    · exact Or.inl (prefix_of_prefix_append_sep sub [] y hsep hp).isInfix
    · exact Or.inr hi
  | cons a x ih =>
    rw [List.cons_append] at h
    rcases List.infix_cons_iff.1 h with hp | hi
    · exact Or.inl (prefix_of_prefix_append_sep sub (a :: x) y hsep hp).isInfix
    · rcases ih hi with h1 | h2
      · exact Or.inl (List.infix_cons h1)
      · exact Or.inr h2

/-- `.git` has no separator in it. -/
theorem sep_not_mem_dotGit : '/' ∉ dotGit := by decide

/-- `.git` does not fit into a shorter run. -/
theorem dotGit_not_infix_of_short (l : List Char) (h : l.length < 4) : ¬ dotGit <:+: l := by
  intro hi
  have := hi.length_le
  simp [dotGit] at this
  omega

/-- The first element of a path begins it, and every element occurs in it. -/
theorem splitSep_infix (p : List Char) :
    ∃ e es, splitSep p = e :: es ∧ e <+: p ∧ ∀ x ∈ es, x <:+: p := by
  induction p with
  | nil => exact ⟨[], [], rfl, List.nil_prefix, by simp⟩
  | cons c cs ih =>
    obtain ⟨e, es, hs, he, hes⟩ := ih
    unfold splitSep
    split
    · refine ⟨[], e :: es, by rw [hs], List.nil_prefix, ?_⟩
      intro x hx
      rcases List.mem_cons.1 hx with rfl | hx
      · exact List.infix_cons he.isInfix
      · exact List.infix_cons (hes x hx)
    · rw [hs]
      exact ⟨c :: e, es, rfl, (List.prefix_cons_inj c).2 he,
        fun x hx => List.infix_cons (hes x hx)⟩

/-- Every element of a path occurs in it. -/
theorem infix_of_mem_splitSep (p e : List Char) (h : e ∈ splitSep p) : e <:+: p := by
  obtain ⟨e0, es, hs, he, hes⟩ := splitSep_infix p
  rw [hs] at h
  rcases List.mem_cons.1 h with rfl | h
  · exact he.isInfix
  · exact hes e h

/-- The backtracking loop leaves a suffix of the reversed buffer, not shorter
than `dotdot` allows. -/
theorem backtrackLoop_suffix (dotdot : Nat) (popped : Char) (rev : List Char) :
    backtrackLoop dotdot popped rev <:+ rev ∧
    min dotdot rev.length ≤ (backtrackLoop dotdot popped rev).length := by
  induction rev generalizing popped with
  | nil => simp [backtrackLoop]
  | cons c rev ih =>
    unfold backtrackLoop
    split
    · rename_i hc
      obtain ⟨h1, h2⟩ := ih c
      refine ⟨h1.trans (List.suffix_cons c rev), ?_⟩
      have : dotdot ≤ rev.length := by
        have := hc.1
        simp at this
        omega
      omega
    · exact ⟨List.suffix_refl _, Nat.min_le_right _ _⟩

/-- Backtracking leaves a prefix of the buffer, not shorter than `dotdot` when
the buffer was longer. -/
theorem backtrack_prefix (out : List Char) (dotdot : Nat) (h : dotdot < out.length) :
    backtrack out dotdot <+: out ∧ dotdot ≤ (backtrack out dotdot).length := by
  unfold backtrack
  cases hr : out.reverse with
  | nil =>
    have : out = [] := by simpa using hr
    subst this
    simp at h
  | cons popped rev =>
    obtain ⟨h1, h2⟩ := backtrackLoop_suffix dotdot popped rev
    have hlen : rev.length + 1 = out.length := by
      have := congrArg List.length hr
      simpa using this.symm
    have hout : out = rev.reverse ++ [popped] := by
      have := congrArg List.reverse hr
      simpa using this
    constructor
    · simp only
      rw [hout]
      exact (List.reverse_prefix.2 h1).trans (List.prefix_append _ _)
    · simp only [List.length_reverse]
      omega

/-- The loop of `Clean` brings no `.git` into the buffer that the path did not
have: the buffer holds separators, `..` and elements of the path. -/
theorem cleanLoop_dotGit (p : List Char) (rooted : Bool) (es : List (List Char))
    (out : List Char) (dotdot : Nat)
    (hes : ∀ e ∈ es, e <:+: p)
    (hout : dotGit <:+: out → dotGit <:+: p)
    (hroot : rooted = true → 1 ≤ dotdot ∧ ∃ t, out = '/' :: t)
    (h : dotGit <:+: cleanLoop rooted es out dotdot) : dotGit <:+: p := by
  induction es generalizing out dotdot with
  | nil => exact hout h
  | cons e es ih =>
    have hes' : ∀ x ∈ es, x <:+: p := fun x hx => hes x (List.mem_cons_of_mem _ hx)
    have he : e <:+: p := hes e (List.mem_cons_self _ _)
    unfold cleanLoop at h
    split at h
    · exact ih out dotdot hes' hout hroot h
    · split at h
      · split at h
        · rename_i hlen
          obtain ⟨hpre, hge⟩ := backtrack_prefix out dotdot hlen
          refine ih (backtrack out dotdot) dotdot hes' (fun hb => hout (hb.trans hpre.isInfix)) ?_ h
          intro hr
          obtain ⟨hdd, t, ht⟩ := hroot hr
          refine ⟨hdd, ?_⟩
          obtain ⟨u, hu⟩ := hpre
          cases hb : backtrack out dotdot with
          | nil => rw [hb] at hge; simp at hge; omega
          | cons b bs =>
            rw [hb, ht] at hu
            simp at hu
            exact ⟨bs, by rw [hu.1]⟩
        · split at h
          · exact ih out dotdot hes' hout hroot h
          · rename_i hr
            refine ih _ _ hes' ?_ (fun hr' => absurd hr' hr) h
            intro hg
            split at hg
            · rw [List.append_assoc] at hg
              rcases infix_of_infix_append_sep dotGit out _ sep_not_mem_dotGit hg with h1 | h2
              · exact hout h1
              · exact absurd h2 (dotGit_not_infix_of_short _ (by simp))
            · rename_i hl
              have : out = [] := by
                cases out with
                | nil => rfl
                | cons a as => simp at hl
              subst this
              exact absurd hg (dotGit_not_infix_of_short _ (by simp))
      · refine ih _ dotdot hes' ?_ ?_ h
        · intro hg
          split at hg
          · rw [List.append_assoc] at hg
            rcases infix_of_infix_append_sep dotGit out _ sep_not_mem_dotGit hg with h1 | h2
            · exact hout h1
            · exact h2.trans he
          · rename_i hc
            cases hr : rooted with
            | true =>
              obtain ⟨_, t, ht⟩ := hroot hr
              have hl : out.length = 1 := by
                by_contra hne
                exact hc (Or.inl ⟨hr, hne⟩)
              have : t = [] := by
                rw [ht] at hl
                simpa using hl
              subst this
              subst ht
              rcases infix_of_infix_append_sep dotGit [] e sep_not_mem_dotGit hg with h1 | h2
              · exact absurd h1 (dotGit_not_infix_of_short _ (by simp))
              · exact h2.trans he
            | false =>
              have hl : out.length = 0 := by
                by_contra hne
                exact hc (Or.inr ⟨by simp [hr], hne⟩)
              have : out = [] := List.length_eq_zero.1 hl
              subst this
              exact (by simpa using hg : dotGit <:+: e).trans he
        · intro hr
          obtain ⟨hdd, t, ht⟩ := hroot hr
          refine ⟨hdd, ?_⟩
          split
          · exact ⟨t ++ ['/'] ++ e, by rw [ht]; simp⟩
          · exact ⟨t ++ e, by rw [ht]; simp⟩

/-- `Clean` brings no `.git` into a path that did not have it. -/
theorem cleanChars_dotGit (p : List Char) (h : dotGit <:+: cleanChars p) : dotGit <:+: p := by
  cases p with
  | nil => exact absurd h (dotGit_not_infix_of_short _ (by simp [cleanChars]))
  | cons c cs =>
    have key : dotGit <:+: cleanLoop (isSep c) (splitSep (c :: cs))
        (if isSep c then ['/'] else []) (if isSep c then 1 else 0) → dotGit <:+: c :: cs := by
      intro hl
      refine cleanLoop_dotGit (c :: cs) (isSep c) (splitSep (c :: cs)) _ _
        (fun e he => infix_of_mem_splitSep _ e he) ?_ ?_ hl
      · intro hg
        split at hg
        · exact absurd hg (dotGit_not_infix_of_short _ (by simp))
        · exact absurd hg (dotGit_not_infix_of_short _ (by simp))
      · intro hr
        simp [hr]
    unfold cleanChars at h
    simp only at h
    by_cases hz : (cleanLoop (isSep c) (splitSep (c :: cs))
        (if isSep c then ['/'] else []) (if isSep c then 1 else 0)).length = 0
    · rw [if_pos hz] at h
      exact absurd h (dotGit_not_infix_of_short _ (by simp))
    · rw [if_neg hz] at h
      exact key h

/-- The loop of `Rel` leaves a suffix of the target. -/
theorem relLoop_suffix (fuel : Nat) (base targ : List Char) :
    (relLoop fuel base targ).2.2 <:+ targ := by
  induction fuel generalizing base targ with
  | zero => exact List.suffix_refl _
  | succ n ih =>
    unfold relLoop
    simp only
    split_ifs
    · exact List.suffix_refl _
    · exact List.suffix_refl _
    · exact (ih _ _).trans ((List.drop_suffix 1 _).trans (List.dropWhile_suffix _))

/-- The `..` elements `Rel` writes hold dots and separators only. -/
theorem mem_upDirs (rest : List Char) (c : Char) (h : c ∈ upDirs rest) : c = '.' ∨ c = '/' := by
  unfold upDirs at h
  rw [List.mem_append] at h
  rcases h with h | h
  · simp at h
    exact Or.inl h
  · rw [List.mem_flatten] at h
    obtain ⟨l, hl, hc⟩ := h
    rw [List.mem_replicate] at hl
    rw [hl.2] at hc
    simp at hc
    rcases hc with rfl | rfl
    · exact Or.inr rfl
    · exact Or.inl rfl

/-- The shapes of a result of `Rel`: `.`, or `..` elements and then the rest
of the target, or the rest of the target alone. -/
theorem relChars_ok_cases (basepath targpath rel : List Char)
    (h : relChars basepath targpath = .ok rel) :
    rel = ['.'] ∨
    (∃ rest tRest, tRest <:+ cleanChars targpath ∧
      rel = upDirs rest ++ (if tRest ≠ [] then '/' :: tRest else [])) ∨
    rel <:+ cleanChars targpath := by
  unfold relChars at h
  simp only at h
  generalize (if cleanChars basepath = ['.'] then [] else cleanChars basepath) = base at h
  have hsuf := relLoop_suffix base.length base (cleanChars targpath)
  generalize relLoop base.length base (cleanChars targpath) = r at h hsuf
  obtain ⟨bElem, bRest, tRest⟩ := r
  simp only at h hsuf
  split_ifs at h
  all_goals first
    | (injection h with h; subst h; exact Or.inl rfl)
    | (injection h with h; subst h; exact Or.inr (Or.inr hsuf))
    | (injection h with h; subst h; exact Or.inr (Or.inl ⟨bRest, tRest, hsuf, by simp [*]⟩))

/-- `Rel` brings no `.git` into its result that the target did not have. -/
theorem relChars_dotGit (basepath targpath rel : List Char)
    (h : relChars basepath targpath = .ok rel) (hg : dotGit <:+: rel) :
    dotGit <:+: targpath := by
  have hup : ∀ rest, ¬ dotGit <:+: upDirs rest := by
    intro rest hi
    have : 'g' ∈ upDirs rest := hi.subset (by simp [dotGit])
    rcases mem_upDirs rest 'g' this with h | h <;> exact absurd h (by decide)
  apply cleanChars_dotGit
  rcases relChars_ok_cases basepath targpath rel h with rfl | ⟨rest, tRest, hsuf, rfl⟩ | hsuf
  · exact absurd hg (dotGit_not_infix_of_short _ (by simp))
  · split at hg
    · rcases infix_of_infix_append_sep dotGit _ _ sep_not_mem_dotGit hg with h1 | h2
      · exact absurd h1 (hup _)
      · exact h2.trans hsuf.isInfix
    · rw [List.append_nil] at hg
      exact absurd hg (hup _)
  · exact hg.trans hsuf.isInfix

/-! ## The tree handler and the metadata directory -/

mutual
/-- What the callback keeps true of its state, the walk of a node keeps true. -/
theorem filepath_walk_invariant {α : Type} (P : α → Prop)
    (fn : α → String → Option Bool → Option GoError → α × Option GoError)
    (hfn : ∀ acc path isDir err, P acc → P (fn acc path isDir err).1) :
    ∀ (path : String) (node : FsNode) (acc : α), P acc → P (filepath_walk fn path node acc).1
  | path, .file, acc, h => by
    rw [filepath_walk]
    exact hfn acc path _ _ h
  | path, .noStat err, acc, h => by
    rw [filepath_walk]
    exact hfn acc path _ _ h
  | path, .dirNoRead err, acc, h => by
    rw [filepath_walk]
    exact hfn acc path _ _ h
  | path, .dir entries, acc, h => by
    rw [filepath_walk]
    have h1 := hfn acc path (some true) none h
    split
    · rename_i acc1 err1 heq
      rw [heq] at h1
      exact h1
    · rename_i acc1 heq
      rw [heq] at h1
      exact filepath_walkNames_invariant P fn hfn path entries acc1 h1
/-- What the callback keeps true of its state, the walk of the names of a
directory keeps true. -/
theorem filepath_walkNames_invariant {α : Type} (P : α → Prop)
    (fn : α → String → Option Bool → Option GoError → α × Option GoError)
    (hfn : ∀ acc path isDir err, P acc → P (fn acc path isDir err).1) :
    ∀ (path : String) (entries : List (String × FsNode)) (acc : α), P acc →
      P (filepath_walkNames fn path entries acc).1
  | _, [], acc, h => by
    rw [filepath_walkNames]
    exact h
  | path, (name, .noStat err) :: rest, acc, h => by
    have h1 := hfn acc (filepath_Join [path, name]) none (some err) h
    rw [filepath_walkNames]
    split
    · rename_i acc1 err1 heq
      rw [heq] at h1
      split
      · exact h1
      · exact filepath_walkNames_invariant P fn hfn path rest acc1 h1
    · rename_i acc1 heq
      rw [heq] at h1
      exact filepath_walkNames_invariant P fn hfn path rest acc1 h1
  | path, (name, .file) :: rest, acc, h => by
    have h1 := filepath_walk_invariant P fn hfn (filepath_Join [path, name]) .file acc h
    rw [filepath_walkNames]
    split
    · rename_i acc1 err1 heq
      rw [heq] at h1
      split
      · exact h1
      · exact filepath_walkNames_invariant P fn hfn path rest acc1 h1
    · rename_i acc1 heq
      rw [heq] at h1
      exact filepath_walkNames_invariant P fn hfn path rest acc1 h1
    · intro _ he
      cases he
  | path, (name, .dirNoRead err) :: rest, acc, h => by
    have h1 := filepath_walk_invariant P fn hfn (filepath_Join [path, name]) (.dirNoRead err) acc h
    rw [filepath_walkNames]
    split
    · rename_i acc1 err1 heq
      rw [heq] at h1
      split
      · exact h1
      · exact filepath_walkNames_invariant P fn hfn path rest acc1 h1
    · rename_i acc1 heq
      rw [heq] at h1
      exact filepath_walkNames_invariant P fn hfn path rest acc1 h1
    · intro _ he
      cases he
  | path, (name, .dir entries) :: rest, acc, h => by
    have h1 := filepath_walk_invariant P fn hfn (filepath_Join [path, name]) (.dir entries) acc h
    rw [filepath_walkNames]
    split
    · rename_i acc1 err1 heq
      rw [heq] at h1
      split
      · exact h1
      · exact filepath_walkNames_invariant P fn hfn path rest acc1 h1
    · rename_i acc1 heq
      rw [heq] at h1
      exact filepath_walkNames_invariant P fn hfn path rest acc1 h1
    · intro _ he
      cases he
end

/-- What the callback keeps true of its state, `filepath.Walk` keeps true. -/
theorem filepath_Walk_invariant {α : Type} (env : Env σ V) (st : σ) (root : String)
    (P : α → Prop) (fn : α → String → Option Bool → Option GoError → α × Option GoError)
    (hfn : ∀ acc path isDir err, P acc → P (fn acc path isDir err).1)
    (acc : α) (h : P acc) : P (filepath_Walk env st root fn acc).1 := by
  have hr : P (match env.treeAt st root with
      | .noStat err => fn acc root none (some err)
      | node => filepath_walk fn root node acc).1 := by
    split
    · exact hfn acc root _ _ h
    · exact filepath_walk_invariant P fn hfn root _ acc h
  unfold filepath_Walk
  simp only
  split
  · exact hr
  · exact hr

/-- The characters of the string `.git`. -/
theorem dotGit_eq : (".git" : String).data = dotGit := by decide

/-- The callback of the tree handler adds no entry with `.git` in it. -/
theorem treeWalkFn_no_dotGit (RepoPath : String) (files : List String) (path : String)
    (isDir : Option Bool) (err : Option GoError)
    (h : ∀ f ∈ files, strings_Contains f ".git" = false) :
    ∀ f ∈ (treeWalkFn RepoPath files path isDir err).1, strings_Contains f ".git" = false := by
  unfold treeWalkFn
  split
  · exact h
  · split
    · split
      · exact h
      · rename_i hnot
        cases hrel : filepath_Rel RepoPath path with
        | error e => exact h
        | ok rel =>
          simp only
          intro f hf
          rcases List.mem_append.1 hf with hf | hf
          · exact h f hf
          · have hfr : f = rel := by simpa using hf
            subst hfr
            cases hc : strings_Contains f ".git" with
            | false => rfl
            | true =>
              exfalso
              apply hnot
              unfold strings_Contains at hc ⊢
              rw [dotGit_eq, containsChars_iff] at hc ⊢
              unfold filepath_Rel at hrel
              cases hch : relChars RepoPath.data path.data with
              | error e => rw [hch] at hrel; cases hrel
              | ok r =>
                rw [hch] at hrel
                have hfr : f = String.mk r := by
                  injection hrel with hrel
                  exact hrel.symm
                rw [hfr] at hc
                exact relChars_dotGit _ _ r hch hc
    · exact h

/-- C5: no entry of the files list built by `GetTreeHandler` lies under the
`.git` directory of the mirror root: no entry is `.git` or begins with `.git/`,
for every working copy and every root path; indeed no entry has `.git` anywhere
in it. -/
theorem GetTreeHandler_excludes_metadata (env : Env σ V) (st : σ) (s : GitService)
    (format : String) (r : TreeResponse)
    (hr : (GetTreeHandler env st s format).1.body = .tree r) :
    ∀ f ∈ r.Files,
      f ≠ ".git" ∧ ¬ (".git/" : String).data <+: f.data ∧ strings_Contains f ".git" = false := by
  have hall : ∀ f ∈ r.Files, strings_Contains f ".git" = false := by
    rcases GetTreeHandler_cases env st s format with ⟨files, err, _, h⟩ | ⟨files, hw, h⟩
    · rw [h, (returnResponse_status _ _ _ _).2] at hr
      cases hr
    · rw [h, (returnResponse_status _ _ _ _).2] at hr
      cases hr
      have := filepath_Walk_invariant env st s.RepoPath
        (fun files : List String => ∀ f ∈ files, strings_Contains f ".git" = false)
        (treeWalkFn s.RepoPath) (treeWalkFn_no_dotGit s.RepoPath) [] (by simp)
      rw [hw] at this
      exact this
  intro f hf
  have hc := hall f hf
  refine ⟨?_, ?_, hc⟩
  · rintro rfl
    exact absurd hc (by decide)
  · intro hp
    have hi : dotGit <:+: f.data := by
      have h1 : dotGit <+: (".git/" : String).data := by decide
      exact (h1.trans hp).isInfix
    unfold strings_Contains at hc
    rw [dotGit_eq] at hc
    rw [(containsChars_iff _ _).2 hi] at hc
    cases hc

/-- C5 at the working copy of `demoEnv`, which has a `.git` directory with two
files in it: neither entry of the list lies under `.git`. -/
theorem GetTreeHandler_excludes_metadata_witness :
    (GetTreeHandler demoEnv 0 openService "json").1.body
      = .tree ⟨["README.md", "docs/a.md"], 5, "aaa", false⟩ ∧
    (("README.md" : String) ≠ ".git" ∧ ¬ (".git/" : String).data <+: ("README.md" : String).data ∧
      strings_Contains "README.md" ".git" = false) ∧
    (("docs/a.md" : String) ≠ ".git" ∧ ¬ (".git/" : String).data <+: ("docs/a.md" : String).data ∧
      strings_Contains "docs/a.md" ".git" = false) :=
  ⟨rfl,
   GetTreeHandler_excludes_metadata demoEnv 0 openService "json"
    ⟨["README.md", "docs/a.md"], 5, "aaa", false⟩ rfl "README.md" (by decide),
   GetTreeHandler_excludes_metadata demoEnv 0 openService "json"
    ⟨["README.md", "docs/a.md"], 5, "aaa", false⟩ rfl "docs/a.md" (by decide)⟩

/-! ## The tree handler leaves out more than the metadata directory -/

/-- C6 fails on the working copy of `demoEnv`: `.gitignore` is a file directly
under the root `repo`, outside `repo/.git`, and the files list is
`README.md`, `docs/a.md`, without it. -/
theorem GetTreeHandler_drops_gitignore :
    demoEnv.treeAt 0 openService.RepoPath =
      .dir [(".git", .dir [("HEAD", .file), ("config", .file)]), (".gitignore", .file),
        ("README.md", .file), ("docs", .dir [("a.md", .file)])] ∧
    (GetTreeHandler demoEnv 0 openService "json").1.status = 200 ∧
    (GetTreeHandler demoEnv 0 openService "json").1.body
      = .tree ⟨["README.md", "docs/a.md"], 5, "aaa", false⟩ ∧
    serve demoEnv (GetTreeHandler demoEnv 0 openService "json").1
      = ⟨200, some (.tree ⟨["README.md", "docs/a.md"], 5, "aaa", false⟩)⟩ ∧
    ".gitignore" ∉ ["README.md", "docs/a.md"] ∧
    strings_Contains (filepath_Join [openService.RepoPath, ".gitignore"]) ".git" = true ∧
    filepath_Rel openService.RepoPath (filepath_Join [openService.RepoPath, ".gitignore"])
      = .ok ".gitignore" :=
  ⟨rfl, rfl, rfl, rfl, by decide, by decide, rfl⟩

/-! ## The loop of `Rel` ends within its fuel -/

/-- A round of the loop of `Rel` shortens the base. -/
theorem relLoop_step_length (base : List Char) (h : base ≠ []) :
    ((base.dropWhile (fun c => ! isSep c)).drop 1).length < base.length := by
  have hs : (base.dropWhile (fun c => ! isSep c)).length ≤ base.length :=
    (List.dropWhile_suffix _).length_le
  have hpos : 0 < base.length := List.length_pos.2 h
  rw [List.length_drop]
  omega

/-- With fuel for every character of the base the loop of `Rel` ends by its own
test: more fuel gives the same result. -/
theorem relLoop_fuel (n m : Nat) (base targ : List Char)
    (hn : base.length ≤ n) (hm : base.length ≤ m) :
    relLoop n base targ = relLoop m base targ := by
  induction n generalizing m base targ with
  | zero =>
    have hb : base = [] := List.length_eq_zero.1 (Nat.le_zero.1 hn)
    subst hb
    cases m with
    | zero => rfl
    | succ m => simp [relLoop]
  | succ n ih =>
    cases m with
    | zero =>
      have hb : base = [] := List.length_eq_zero.1 (Nat.le_zero.1 hm)
      subst hb
      simp [relLoop]
    | succ m =>
      unfold relLoop
      by_cases h0 : base = [] ∨ targ = []
      · rw [if_pos h0, if_pos h0]
      · rw [if_neg h0, if_neg h0]
        simp only
        split_ifs
        · rfl
        · have hb : base ≠ [] := fun hb => h0 (Or.inl hb)
          have hlt := relLoop_step_length base hb
          exact ih m _ _ (by omega) (by omega)
end GitSvc
